import Mathlib

/-!
Verification of the neato SDK (Beehive session management and Nucleo
signed command dispatch) against its natural-language specification.

The Go source (beehive.go, nucleo.go, neato.go, credentials file) is
shallowly embedded below: pure functions become Lean functions, byte
slices become `List Nat` with byte values `< 256`, Go `nil` slices and
pointers become `Option`, and effectful calls (crypto/rand, the HTTP
transport, the credential backend) become explicit parameters carrying
the outcome of the external call.
-/

namespace Neato

/-! ## Hex encoding (encoding/hex as used by newToken and newID) -/

/-- Low half of the hex digit table. -/
def hexTableLow : List Char := ['0', '1', '2', '3', '4', '5', '6', '7']

/-- High half of the hex digit table. -/
def hexTableHigh : List Char := ['8', '9', 'a', 'b', 'c', 'd', 'e', 'f']

/-- Lowercase hex digit table, as in encoding/hex (`hextable`). -/
def hexTable : List Char := hexTableLow ++ hexTableHigh

/-- Hex digit for a nibble value. -/
def hexDig (n : Nat) : Char := hexTable.getD n '0'

/-- Numeric value of a hex digit (length of the table when absent). -/
def hexVal (c : Char) : Nat := hexTable.findIdx (fun d => d = c)

/-- hex.Encode: each byte `b` becomes the two digits `b >> 4` and `b & 0xf`
(written as division and remainder on `Nat` bytes). -/
def hexEncode (bs : List Nat) : List Char :=
  bs.flatMap (fun b => [hexDig (b / 16), hexDig (b % 16)])

/-- Inverse of `hexEncode`, used to state that the produced string really
encodes the input bytes. -/
def hexDecode : List Char → List Nat
  | c1 :: c2 :: rest => (hexVal c1 * 16 + hexVal c2) :: hexDecode rest
  | _ => []

theorem hexVal_hexDig : ∀ n < 16, hexVal (hexDig n) = n := by decide

theorem hexDig_mem (n : Nat) : hexDig n ∈ hexTable := by
  rcases Nat.lt_or_ge n 16 with h | h
  · interval_cases n <;> decide
  · rw [hexDig, List.getD_eq_default]
    · decide
    · simpa [hexTable] using h

theorem length_hexEncode (bs : List Nat) : (hexEncode bs).length = 2 * bs.length := by
  induction bs with
  | nil => rfl
  | cons b rest ih => simp [hexEncode, List.flatMap] at ih ⊢; omega

theorem mem_hexEncode {c : Char} {bs : List Nat} (h : c ∈ hexEncode bs) : c ∈ hexTable := by
  induction bs with
  | nil => simp [hexEncode] at h
  | cons b rest ih =>
    simp only [hexEncode, List.flatMap_cons] at h
    rcases List.mem_append.mp h with h | h
    · simp only [List.mem_cons, List.not_mem_nil, or_false] at h
      rcases h with h | h
      · exact h ▸ hexDig_mem _
      · exact h ▸ hexDig_mem _
    · exact ih h

theorem hexDecode_hexEncode (bs : List Nat) (h : ∀ b ∈ bs, b < 256) :
    hexDecode (hexEncode bs) = bs := by
  induction bs with
  | nil => rfl
  | cons b rest ih =>
    have hb : b < 256 := h b (List.mem_cons_self b rest)
    have h1 : b / 16 < 16 := by omega
    have h2 : b % 16 < 16 := by omega
    simp only [hexEncode, List.flatMap_cons, List.cons_append, List.nil_append, hexDecode]
    rw [hexVal_hexDig _ h1, hexVal_hexDig _ h2]
    have : b / 16 * 16 + b % 16 = b := by omega
    rw [this]
    exact congrArg (b :: ·) (ih fun x hx => h x (List.mem_cons_of_mem b hx))

/-! ## Random token and request identifier generation

`newToken` (beehive.go) and `newID` (nucleo.go) each fill a buffer from
crypto/rand and hex-encode it.  The outcome of the `rand.Read` call is
passed in explicitly as `Except String (List Nat)`: `ok bs` models a
successful read of the buffer bytes, `error e` models an entropy failure. -/

/-- tokenLength constant of beehive.go. -/
def tokenLength : Nat := 32

/-- idLength constant of nucleo.go. -/
def idLength : Nat := 16

/-- Model of the unnamed `token` struct of beehive.go; `value` holds the
ASCII hex bytes, modelled at the character level. -/
structure token where
  value : String
deriving DecidableEq

/-- token.String: a nil receiver yields the empty string. -/
def tokenString : Option token → String
  | some t => t.value
  | none => ""

/-- newToken (beehive.go): hex-encode `tokenLength` random bytes;
an entropy failure is returned unchanged. -/
def newToken (randRead : Except String (List Nat)) : Except String token :=
  match randRead with
  | .error e => .error e
  | .ok key => .ok ⟨String.mk (hexEncode key)⟩

/-- Model of the Go type `reqID []byte`; `none` models the nil slice,
`some bs` a slice holding bytes `bs`. -/
abbrev reqIDBytes := Option (List Nat)

/-- newID (nucleo.go): hex-encode `idLength` random bytes into a fresh
reqID byte slice (the slice holds the ASCII bytes of the hex digits);
an entropy failure is returned unchanged. -/
def newID (randRead : Except String (List Nat)) : Except String reqIDBytes :=
  match randRead with
  | .error e => .error e
  | .ok raw => .ok (some ((hexEncode raw).map Char.toNat))

theorem charOfNat_toNat (c : Char) : Char.ofNat c.toNat = c :=
  Char.ofNat_toNat c

/-- Claim C5: newToken yields a 64-char lowercase hex string from 32 random
bytes, newID yields a 32-char lowercase hex identifier from 16 random bytes,
and an entropy-source error is propagated by each with no value produced. -/
theorem newToken_newID_spec (bs32 bs16 : List Nat) (e : String) :
    (bs32.length = tokenLength → (∀ b ∈ bs32, b < 256) →
      ∃ t, newToken (.ok bs32) = .ok t ∧
        (tokenString (some t)).length = 64 ∧
        (∀ c ∈ (tokenString (some t)).data, c ∈ hexTable) ∧
        hexDecode (tokenString (some t)).data = bs32) ∧
    (bs16.length = idLength → (∀ b ∈ bs16, b < 256) →
      ∃ l, newID (.ok bs16) = .ok (some l) ∧
        l.length = 32 ∧
        (∀ c ∈ l.map Char.ofNat, c ∈ hexTable) ∧
        hexDecode (l.map Char.ofNat) = bs16) ∧
    newToken (.error e) = .error e ∧
    newID (.error e) = .error e := by
  refine ⟨fun hlen hbytes => ?_, fun hlen hbytes => ?_, rfl, rfl⟩
  · refine ⟨⟨String.mk (hexEncode bs32)⟩, rfl, ?_, ?_, ?_⟩
    · show (String.mk (hexEncode bs32)).length = 64
      have := length_hexEncode bs32
      simp only [String.length, tokenString] at *
      rw [tokenLength] at hlen
      omega
    · intro c hc
      exact mem_hexEncode hc
    · exact hexDecode_hexEncode bs32 hbytes
  · refine ⟨(hexEncode bs16).map Char.toNat, rfl, ?_, ?_, ?_⟩
    · have := length_hexEncode bs16
      rw [idLength] at hlen
      simp only [List.length_map]
      omega
    · intro c hc
      simp only [List.map_map] at hc
      rcases List.mem_map.mp hc with ⟨d, hd, hdc⟩
      rw [← hdc]
      simp only [Function.comp_apply, charOfNat_toNat]
      exact mem_hexEncode hd
    · simp only [List.map_map]
      have : (fun c => Char.ofNat (Char.toNat c)) = (id : Char → Char) := by
        funext c; exact charOfNat_toNat c
      rw [show ((Char.ofNat ∘ Char.toNat) = (id : Char → Char)) from funext fun c => charOfNat_toNat c]
      rw [List.map_id]
      exact hexDecode_hexEncode bs16 hbytes

/-- Witness for the claim C5 theorem at concrete entropy outcomes. -/
theorem newToken_newID_spec_witness :
    (∃ t, newToken (.ok (List.replicate 32 171)) = .ok t ∧
        (tokenString (some t)).length = 64 ∧
        (∀ c ∈ (tokenString (some t)).data, c ∈ hexTable) ∧
        hexDecode (tokenString (some t)).data = List.replicate 32 171) ∧
    (∃ l, newID (.ok (List.replicate 16 205)) = .ok (some l) ∧
        l.length = 32 ∧
        (∀ c ∈ l.map Char.ofNat, c ∈ hexTable) ∧
        hexDecode (l.map Char.ofNat) = List.replicate 16 205) ∧
    newToken (.error "entropy failure") = .error "entropy failure" ∧
    newID (.error "entropy failure") = .error "entropy failure" := by
  have h := newToken_newID_spec (List.replicate 32 171) (List.replicate 16 205) "entropy failure"
  exact ⟨h.1 (by decide) (by decide), h.2.1 (by decide) (by decide), h.2.2⟩

/-! ## Data model

Structures of beehive.go and nucleo.go that take part in signing and
dispatch.  Field defaults are the Go zero values.  The Go field `Prefix`
of `Robot` is embedded under the name `PrefixVal`. -/

/-- Atomic model of Go time.Time values: carried around, never computed on. -/
structure GoTime where
  unixNano : Int := 0
deriving DecidableEq

/-- Robot struct of beehive.go. -/
structure Robot where
  Serial : String := ""
  PrefixVal : String := ""
  Name : String := ""
  Model : String := ""
  SecretKey : String := ""
  PurchasedAt : GoTime := {}
  LinkedAt : GoTime := {}
  Traits : List String := []
deriving DecidableEq

/-- event struct of nucleo.go. -/
structure event where
  Mode : Int := 0
  Day : Int := 0
  StartTime : String := ""
  BoundaryID : String := ""
deriving DecidableEq

/-- Params struct of nucleo.go. -/
structure Params where
  Category : Int := 0
  Mode : Int := 0
  Modifier : Int := 0
  RobotSounds : Bool := false
  DirtbinAlert : Bool := false
  AllAlerts : Bool := false
  Leds : Bool := false
  ButtonClicks : Bool := false
  DirtbinAlertReminderInterval : Int := 0
  FilterChangeReminderInterval : Int := 0
  BrushChangeReminderInterval : Int := 0
  Clock24H : Bool := false
  Locale : String := ""
  AvailableLocales : Option (List String) := none
  NavigationMode : Int := 0
  BoundaryID : String := ""
  SpotWidth : Int := 0
  SpotHeight : Int := 0
  Events : Option (List event) := none
deriving DecidableEq

/-- request struct of nucleo.go (the command envelope); `Params` is a
pointer in Go, hence an `Option` here (`none` is the nil pointer). -/
structure request where
  ReqID : reqIDBytes := none
  Cmd : String := ""
  Params : Option Params := none
deriving DecidableEq

/-! ## encoding/json marshalling of the command envelope

Embedding of what `json.Marshal` produces on the `request`, `Params` and
`event` structs: objects with the json-tag field names in declaration
order, no whitespace, strings escaped with Go's HTML-escaping string
encoder, `[]byte` values (the reqID) encoded as base64, nil slices and
nil pointers as `null`, and the `omitempty` pointer field `params`
omitted when nil.  Rendering works on `List Char`. -/

/-- Opening brace character (written by code point). -/
def lbrace : Char := Char.ofNat 123

/-- Closing brace character (written by code point). -/
def rbrace : Char := Char.ofNat 125

/-- Go encoding/json string escaping of one character (HTML escaping on,
as in json.Marshal): quote, backslash, newline, carriage return and tab
get two-character escapes, other control characters and the HTML
characters get \u00xx escapes, U+2028 and U+2029 get \u202x escapes,
everything else is written literally. -/
def escChar (c : Char) : List Char :=
  if c = '"' then ['\\', '"']
  else if c = '\\' then ['\\', '\\']
  else if c = '\n' then ['\\', 'n']
  else if c = '\r' then ['\\', 'r']
  else if c = '\t' then ['\\', 't']
  else if c.toNat < 32 then ['\\', 'u', '0', '0', hexDig (c.toNat / 16), hexDig (c.toNat % 16)]
  else if c = '<' ∨ c = '>' ∨ c = '&' then
    ['\\', 'u', '0', '0', hexDig (c.toNat / 16), hexDig (c.toNat % 16)]
  else if c.toNat = 0x2028 then ['\\', 'u', '2', '0', '2', '8']
  else if c.toNat = 0x2029 then ['\\', 'u', '2', '0', '2', '9']
  else [c]

/-- Escape a whole character sequence. -/
def escStr (s : List Char) : List Char := s.flatMap escChar

/-- JSON string literal for a Go string. -/
def renderString (s : String) : List Char := '"' :: escStr s.data ++ ['"']

/-- Decimal digits of a natural number, most significant first. -/
def natToChars (n : Nat) : List Char :=
  if _h : n < 10 then [hexDig n] else natToChars (n / 10) ++ [hexDig (n % 10)]
decreasing_by exact Nat.div_lt_self (by omega) (by omega)

/-- JSON number for a Go int. -/
def renderInt (i : Int) : List Char :=
  if i < 0 then '-' :: natToChars (-i).toNat else natToChars i.toNat

/-- JSON boolean. -/
def renderBool (b : Bool) : List Char :=
  if b then ['t', 'r', 'u', 'e'] else ['f', 'a', 'l', 's', 'e']

/-- Comma-separated concatenation. -/
def commaSep : List (List Char) → List Char
  | [] => []
  | [x] => x
  | x :: rest => x ++ ',' :: commaSep rest

/-- JSON object from already-rendered field values, field names in
struct declaration order as json.Marshal emits them. -/
def renderObj (fields : List (String × List Char)) : List Char :=
  lbrace :: commaSep (fields.map (fun kv => renderString kv.1 ++ ':' :: kv.2)) ++ [rbrace]

/-- Standard base64 alphabet (encoding/base64 StdEncoding, used by
json.Marshal on []byte values). -/
def b64Table : List Char :=
  ['A', 'B', 'C', 'D', 'E', 'F', 'G', 'H', 'I', 'J', 'K', 'L', 'M',
   'N', 'O', 'P', 'Q', 'R', 'S', 'T', 'U', 'V', 'W', 'X', 'Y', 'Z',
   'a', 'b', 'c', 'd', 'e', 'f', 'g', 'h', 'i', 'j', 'k', 'l', 'm',
   'n', 'o', 'p', 'q', 'r', 's', 't', 'u', 'v', 'w', 'x', 'y', 'z',
   '0', '1', '2', '3', '4', '5', '6', '7', '8', '9', '+', '/']

/-- Base64 alphabet character for a 6-bit value. -/
def b64Char (k : Nat) : Char := b64Table.getD k 'A'

/-- Standard base64 with padding, three input bytes per four output
characters (shifts and masks written as division and remainder). -/
def b64encode : List Nat → List Char
  | [] => []
  | [a] => [b64Char (a / 4), b64Char (a % 4 * 16), '=', '=']
  | [a, b] => [b64Char (a / 4), b64Char (a % 4 * 16 + b / 16), b64Char (b % 16 * 4), '=']
  | a :: b :: c :: rest =>
    b64Char (a / 4) :: b64Char (a % 4 * 16 + b / 16) ::
      b64Char (b % 16 * 4 + c / 64) :: b64Char (c % 64) :: b64encode rest

/-- json.Marshal of a reqID ([]byte): nil becomes null, otherwise a
base64 JSON string. -/
def renderReqID : reqIDBytes → List Char
  | none => ['n', 'u', 'l', 'l']
  | some bs => '"' :: b64encode bs ++ ['"']

/-- json.Marshal of an event value. -/
def marshalEventChars (e : event) : List Char :=
  renderObj
    [("mode", renderInt e.Mode),
     ("day", renderInt e.Day),
     ("startTime", renderString e.StartTime),
     ("boundaryId", renderString e.BoundaryID)]

/-- json.Marshal of a []event value: nil slice is null. -/
def renderEventList : Option (List event) → List Char
  | none => ['n', 'u', 'l', 'l']
  | some xs => '[' :: commaSep (xs.map marshalEventChars) ++ [']']

/-- json.Marshal of a []string value: nil slice is null. -/
def renderStrList : Option (List String) → List Char
  | none => ['n', 'u', 'l', 'l']
  | some xs => '[' :: commaSep (xs.map renderString) ++ [']']

/-- json.Marshal of a Params value: every field is emitted (no omitempty
in the Params struct), json-tag names, declaration order. -/
def marshalParamsChars (p : Params) : List Char :=
  renderObj
    [("category", renderInt p.Category),
     ("mode", renderInt p.Mode),
     ("modifier", renderInt p.Modifier),
     ("robotSounds", renderBool p.RobotSounds),
     ("dirtbinAlert", renderBool p.DirtbinAlert),
     ("allAlerts", renderBool p.AllAlerts),
     ("leds", renderBool p.Leds),
     ("buttonClicks", renderBool p.ButtonClicks),
     ("dirtbinAlertReminderInterval", renderInt p.DirtbinAlertReminderInterval),
     ("filterChangeReminderInterval", renderInt p.FilterChangeReminderInterval),
     ("brushChangeReminderInterval", renderInt p.BrushChangeReminderInterval),
     ("clock24h", renderBool p.Clock24H),
     ("locale", renderString p.Locale),
     ("availableLocales", renderStrList p.AvailableLocales),
     ("navigationMode", renderInt p.NavigationMode),
     ("boundaryId", renderString p.BoundaryID),
     ("spotWidth", renderInt p.SpotWidth),
     ("spotHeight", renderInt p.SpotHeight),
     ("events", renderEventList p.Events)]

/-- json.Marshal of the request struct: reqId and cmd always present,
params present only when the Go pointer is non-nil (omitempty). -/
def marshalRequestChars (r : request) : List Char :=
  renderObj
    ([("reqId", renderReqID r.ReqID), ("cmd", renderString r.Cmd)] ++
      (match r.Params with
       | none => []
       | some p => [("params", marshalParamsChars p)]))

/-- String form of the marshalled request body. -/
def marshalRequest (r : request) : String := String.mk (marshalRequestChars r)

/-! ## Package constants (neato.go, nucleo.go, beehive.go) -/

/-- scheme constant of neato.go. -/
def scheme : String := "https"

/-- nucleoAcceptHeader constant of nucleo.go. -/
def nucleoAcceptHeader : String := "application/vnd.neato.nucleo.v1"

/-- nucleoHost constant of nucleo.go. -/
def nucleoHost : String := "nucleo.neatocloud.com:4443"

/-- timeFormat constant of nucleo.go. -/
def timeFormat : String := "Mon, 02 Jan 2006 15:04:05 MST"

/-- beehiveAcceptHeader constant of beehive.go. -/
def beehiveAcceptHeader : String := "application/vnd.neato.beehive.v1+json"

/-- beehiveHost constant of beehive.go. -/
def beehiveHost : String := "beehive.neatocloud.com"

/-- platform constant of beehive.go. -/
def platform : String := "ios"

/-! ## path.Join and path.Clean (used for request URL paths)

Go's path.Clean is embedded at the segment level: split on slashes, drop
empty and "." segments, let ".." pop the previous segment (kept at the
start of a relative path, dropped at the root of a rooted one), rejoin. -/

/-- Split a character sequence on every slash (n slashes yield n+1
segments, empty segments included). -/
def splitSlash : List Char → List (List Char)
  | [] => [[]]
  | c :: rest =>
    if c = '/' then [] :: splitSlash rest
    else
      match splitSlash rest with
      | [] => [[c]]
      | s :: ss => (c :: s) :: ss

/-- One step of path.Clean segment processing over a stack whose head is
the most recent kept segment. -/
def cleanStep (rooted : Bool) (stack : List (List Char)) (seg : List Char) : List (List Char) :=
  if seg = [] ∨ seg = ['.'] then stack
  else if seg = ['.', '.'] then
    match stack with
    | [] => if rooted then [] else [seg]
    | top :: rest => if top = ['.', '.'] then seg :: stack else rest
  else seg :: stack

/-- Rejoin segments with slashes (inverse of `splitSlash`). -/
def joinSegs : List (List Char) → List Char
  | [] => []
  | [x] => x
  | x :: rest => x ++ '/' :: joinSegs rest

/-- path.Clean on characters. -/
def pathCleanChars (cs : List Char) : List Char :=
  let rooted := cs.head? = some '/'
  let segs := (splitSlash cs).foldl (cleanStep rooted) []
  let out := (if rooted then ['/'] else []) ++ joinSegs segs.reverse
  if out = [] then ['.'] else out

/-- path.Clean on strings. -/
def pathClean (s : String) : String := String.mk (pathCleanChars s.data)

/-- strings.Join with a slash separator. -/
def joinSlash : List String → String
  | [] => ""
  | [x] => x
  | x :: rest => x ++ "/" ++ joinSlash rest

/-- path.Join: join from the first non-empty element with slashes, then
clean; all elements empty yields the empty string. -/
def pathJoin : List String → String
  | [] => ""
  | e :: rest => if e = "" then pathJoin rest else pathClean (joinSlash (e :: rest))

/-! ## Nucleo request signing (nucleo.go) -/

/-- ASCII lowering of one character (strings.ToLower restricted to the
ASCII serial numbers this client handles). -/
def asciiLowerChar (c : Char) : Char :=
  if 'A' ≤ c ∧ c ≤ 'Z' then Char.ofNat (c.toNat + 32) else c

/-- strings.ToLower on an ASCII string. -/
def asciiToLower (s : String) : String := String.mk (s.data.map asciiLowerChar)

/-- signingString (nucleo.go): lowercased serial, newline, timestamp,
newline, JSON-marshalled request (the Marshal error is discarded in the
source; Marshal cannot fail on these types). -/
def Robot.signingString (r : Robot) (req : request) (ts : String) : String :=
  asciiToLower r.Serial ++ "\n" ++ ts ++ "\n" ++ marshalRequest req

/-! ## SHA-256 (crypto/sha256) over byte lists, words as Nat mod 2^32 -/

/-- Right rotation of a 32-bit word. -/
def rotr32 (x n : Nat) : Nat := (x / 2 ^ n + x % 2 ^ n * 2 ^ (32 - n)) % 2 ^ 32

/-- SHA-256 big sigma 0. -/
def bigSigma0 (x : Nat) : Nat := rotr32 x 2 ^^^ rotr32 x 13 ^^^ rotr32 x 22

/-- SHA-256 big sigma 1. -/
def bigSigma1 (x : Nat) : Nat := rotr32 x 6 ^^^ rotr32 x 11 ^^^ rotr32 x 25

/-- SHA-256 small sigma 0. -/
def smallSigma0 (x : Nat) : Nat := rotr32 x 7 ^^^ rotr32 x 18 ^^^ x / 2 ^ 3

/-- SHA-256 small sigma 1. -/
def smallSigma1 (x : Nat) : Nat := rotr32 x 17 ^^^ rotr32 x 19 ^^^ x / 2 ^ 10

/-- SHA-256 choice function. -/
def sha256Ch (x y z : Nat) : Nat := (x &&& y) ^^^ ((x ^^^ (2 ^ 32 - 1)) &&& z)

/-- SHA-256 majority function. -/
def sha256Maj (x y z : Nat) : Nat := (x &&& y) ^^^ (x &&& z) ^^^ (y &&& z)

/-- SHA-256 round constants (decimal values of the 64 standard words). -/
def sha256K : List Nat :=
  [1116352408, 1899447441, 3049323471, 3921009573, 961987163, 1508970993,
   2453635748, 2870763221, 3624381080, 310598401, 607225278, 1426881987,
   1925078388, 2162078206, 2614888103, 3248222580, 3835390401, 4022224774,
   264347078, 604807628, 770255983, 1249150122, 1555081692, 1996064986,
   2554220882, 2821834349, 2952996808, 3210313671, 3336571891, 3584528711,
   113926993, 338241895, 666307205, 773529912, 1294757372, 1396182291,
   1695183700, 1986661051, 2177026350, 2456956037, 2730485921, 2820302411,
   3259730800, 3345764771, 3516065817, 3600352804, 4094571909, 275423344,
   430227734, 506948616, 659060556, 883997877, 958139571, 1322822218,
   1537002063, 1747873779, 1955562222, 2024104815, 2227730452, 2361852424,
   2428436474, 2756734187, 3204031479, 3329325298]

/-- SHA-256 initial hash state (decimal values of the 8 standard words). -/
def sha256H0 : List Nat :=
  [1779033703, 3144134277, 1013904242, 2773480762,
   1359893119, 2600822924, 528734635, 1541459225]

/-- Big-endian 32-bit words from groups of four bytes. -/
def toWords : List Nat → List Nat
  | b0 :: b1 :: b2 :: b3 :: rest => (b0 * 2 ^ 24 + b1 * 2 ^ 16 + b2 * 2 ^ 8 + b3) :: toWords rest
  | _ => []

/-- Eight big-endian bytes of a 64-bit length value. -/
def lenBytes (n : Nat) : List Nat :=
  [n / 2 ^ 56 % 256, n / 2 ^ 48 % 256, n / 2 ^ 40 % 256, n / 2 ^ 32 % 256,
   n / 2 ^ 24 % 256, n / 2 ^ 16 % 256, n / 2 ^ 8 % 256, n % 256]

/-- SHA-256 padding: 0x80, zeros to 56 mod 64, 8-byte big-endian bit length. -/
def padMessage (msg : List Nat) : List Nat :=
  msg ++ 0x80 :: List.replicate ((119 - msg.length % 64) % 64) 0 ++ lenBytes (msg.length * 8)

/-- Next word of the message schedule from the words so far. -/
def nextWord (ws : List Nat) : Nat :=
  let n := ws.length
  (smallSigma1 (ws.getD (n - 2) 0) + ws.getD (n - 7) 0 +
    smallSigma0 (ws.getD (n - 15) 0) + ws.getD (n - 16) 0) % 2 ^ 32

/-- Extend the message schedule by the given number of words. -/
def extendWords (ws : List Nat) : Nat → List Nat
  | 0 => ws
  | k + 1 => extendWords (ws ++ [nextWord ws]) k

/-- One SHA-256 compression round on the eight-word working state. -/
def sha256Round (st : List Nat) (ki wi : Nat) : List Nat :=
  match st with
  | [a, b, c, d, e, f, g, h] =>
    let t1 := (h + bigSigma1 e + sha256Ch e f g + ki + wi) % 2 ^ 32
    let t2 := (bigSigma0 a + sha256Maj a b c) % 2 ^ 32
    [(t1 + t2) % 2 ^ 32, a, b, c, (d + t1) % 2 ^ 32, e, f, g]
  | _ => st

/-- Compress one 64-byte block into the hash state. -/
def compressBlock (hs : List Nat) (block : List Nat) : List Nat :=
  let ws := extendWords (toWords block) 48
  let st := (List.zip sha256K ws).foldl (fun st kw => sha256Round st kw.1 kw.2) hs
  List.zipWith (fun x y => (x + y) % 2 ^ 32) hs st

/-- Split a byte list into 64-byte blocks. -/
def chunks64 : List Nat → List (List Nat)
  | [] => []
  | x :: rest => (x :: rest).take 64 :: chunks64 ((x :: rest).drop 64)
termination_by l => l.length
decreasing_by simp; omega

/-- Four big-endian bytes of a 32-bit word. -/
def wordBytes (w : Nat) : List Nat :=
  [w / 2 ^ 24 % 256, w / 2 ^ 16 % 256, w / 2 ^ 8 % 256, w % 256]

/-- SHA-256 digest (32 bytes) of a byte list. -/
def sha256 (msg : List Nat) : List Nat :=
  ((chunks64 (padMessage msg)).foldl compressBlock sha256H0).flatMap wordBytes

/-! ## HMAC (crypto/hmac) and the request signature -/

/-- UTF-8 bytes of one character, as Go produces for []byte(string). -/
def charUtf8 (c : Char) : List Nat :=
  let n := c.toNat
  if n < 0x80 then [n]
  else if n < 0x800 then [0xc0 + n / 64, 0x80 + n % 64]
  else if n < 0x10000 then [0xe0 + n / 4096, 0x80 + n / 64 % 64, 0x80 + n % 64]
  else [0xf0 + n / 262144, 0x80 + n / 4096 % 64, 0x80 + n / 64 % 64, 0x80 + n % 64]

/-- Go []byte(s): the UTF-8 bytes of a string. -/
def utf8Bytes (s : String) : List Nat := s.data.flatMap charUtf8

/-- SHA-256 block size in bytes (the HMAC block size). -/
def hmacBlockSize : Nat := 64

/-- crypto/hmac with SHA-256: a key longer than the block size is first
hashed; the padded key is xored with 0x36 for the inner hash and 0x5c
for the outer hash, matching hmac.New followed by Write and Sum. -/
def hmacGo (key msg : List Nat) : List Nat :=
  let k := if hmacBlockSize < key.length then sha256 key else key
  let ipad := (k ++ List.replicate (hmacBlockSize - k.length) 0).map (fun b => b ^^^ 0x36)
  let opad := (k ++ List.replicate (hmacBlockSize - k.length) 0).map (fun b => b ^^^ 0x5c)
  sha256 (opad ++ sha256 (ipad ++ msg))

/-- sign (nucleo.go): HMAC keyed by []byte(r.SecretKey) over the bytes of
the signing string. -/
def Robot.sign (r : Robot) (req : request) (ts : String) : List Nat :=
  hmacGo (utf8Bytes r.SecretKey) (utf8Bytes (r.signingString req ts))

/-- HMAC-SHA256 written from the spec words (RFC 2104 reference formula):
H((K xor opad) || H((K xor ipad) || message)) with the key zero-padded to
the block size, hashed first when longer than a block. -/
def hmacSHA256Ref (key msg : List Nat) : List Nat :=
  let k0 := if key.length ≤ hmacBlockSize then key else sha256 key
  let kPrime := k0 ++ List.replicate (hmacBlockSize - k0.length) 0
  sha256 (kPrime.map (fun b => b ^^^ 0x5c) ++ sha256 (kPrime.map (fun b => b ^^^ 0x36) ++ msg))

/-- Claim C1: for every robot, envelope and timestamp, sign returns exactly
the HMAC-SHA256 digest keyed by the robot's secret key over the signing
string built from the lowercased serial, a newline, the timestamp, a
newline, and the JSON-serialized envelope. -/
theorem sign_is_hmac_of_signing_string (r : Robot) (req : request) (ts : String) :
    r.sign req ts =
      hmacSHA256Ref (utf8Bytes r.SecretKey)
        (utf8Bytes (asciiToLower r.Serial ++ "\n" ++ ts ++ "\n" ++ marshalRequest req)) := by
  unfold Robot.sign Robot.signingString hmacGo hmacSHA256Ref
  rcases Nat.lt_or_ge hmacBlockSize (utf8Bytes r.SecretKey).length with h | h
  · simp only [if_pos h, if_neg (Nat.not_le.mpr h)]
  · simp only [if_neg (Nat.not_lt.mpr h), if_pos h]

/-! ## Response payload data model (nucleo.go)

The telemetry payload carried back by command responses.  These are flat
data-transfer shapes; Go float64 fields are embedded as `Float`.
Defaults are the Go zero values. -/

/-- battery struct of nucleo.go. -/
structure battery where
  Level : Int := 0
  TimeToEmpty : Int := 0
  TimeToFullCharge : Int := 0
  TotalCharges : Int := 0
  ManufacturingDate : String := ""
  AuthorizationStatus : Int := 0
  Vendor : String := ""

/-- history struct of nucleo.go. -/
structure history where
  Start : GoTime := {}
  End : GoTime := {}
  SuspendedCleaningChargingTime : Int := 0
  ErrorTime : Int := 0
  PauseTime : Int := 0
  Mode : Int := 0
  Area : Float := 0
  LaunchedFrom : String := ""
  Completed : Bool := false

/-- cleaning struct of nucleo.go. -/
structure cleaning where
  TotalCleanedArea : Float := 0
  TotalCleaningTime : Int := 0
  AverageCleanedArea : Float := 0
  AverageCleaningTime : Int := 0
  History : List history := []

/-- details struct of nucleo.go. -/
structure details where
  IsCharging : Bool := false
  IsDocked : Bool := false
  DockHasBeenSeen : Bool := false
  Charge : Int := 0
  IsScheduleEnabled : Bool := false

/-- availableCommands struct of nucleo.go. -/
structure availableCommands where
  Start : Bool := false
  Stop : Bool := false
  Pause : Bool := false
  Resume : Bool := false
  GoToBase : Bool := false

/-- availableServices struct of nucleo.go. -/
structure availableServices where
  HouseCleaning : String := ""
  SpotCleaning : String := ""
  ManualCleaning : String := ""
  Schedule : String := ""

/-- meta struct of nucleo.go. -/
structure meta where
  ModelName : String := ""
  Firmware : String := ""

/-- data struct of nucleo.go (decoded response payload; nil slices are
`none`). -/
structure data where
  Enabled : Bool := false
  Events : Option (List event) := none
  RobotSounds : Bool := false
  DirtbinAlertReminderInterval : Int := 0
  FilterChangeReminderInterval : Int := 0
  BrushChangeReminderInterval : Int := 0
  ProductNumber : String := ""
  Serial : String := ""
  Model : String := ""
  Firmware : String := ""
  Battery : battery := {}
  ModelName : String := ""
  CPUMACID : String := ""
  MainBrdMfgDate : String := ""
  RobotMfgDate : String := ""
  BoardRev : Int := 0
  ChassisRev : Int := 0
  BatteryType : Int := 0
  WheelPodType : Int := 0
  DropSensorType : Int := 0
  MagSensorType : Int := 0
  WallSensorType : Int := 0
  LDSMotorType : Int := 0
  Locale : Int := 0
  USMode : Int := 0
  NeatoServer : String := ""
  CartID : Int := 0
  BrushSpeed : Int := 0
  BrushSpeedEco : Int := 0
  VacuumSpeed : Int := 0
  VacuumPwrPercent : Int := 0
  VacuumPwrPercentEco : Int := 0
  RunTime : Int := 0
  BrushPresent : Int := 0
  VacuumPresent : Int := 0
  PadPresent : Int := 0
  PlatenPresent : Int := 0
  BrushDirection : Int := 0
  VacuumDirection : Int := 0
  PadDirection : Int := 0
  CumulativeCartridgeTimeInSecs : Int := 0
  NCleaningsStartedWhereDustBinWasFull : Int := 0
  BlowerType : Int := 0
  BrushMotorType : Int := 0
  SideBrushType : Int := 0
  SideBrushPower : Int := 0
  NAutoCycleCleaningsStarted : Int := 0
  HardwareVersionMajor : Int := 0
  HardwareVersionMinor : Int := 0
  SoftwareVersionMajor : Int := 0
  SoftwareVersionMinor : Int := 0
  MaxVoltage : Int := 0
  MaxCurrent : Int := 0
  VoltageMultiplier : Int := 0
  CurrentMultiplier : Int := 0
  CapacityMode : Int := 0
  DesignCapacity : Int := 0
  DesignVoltage : Int := 0
  MfgDay : Int := 0
  MfgMonth : Int := 0
  MfgYear : Int := 0
  SerialNumber : Int := 0
  SwVer : Int := 0
  DataVer : Int := 0
  MfgAccess : Int := 0
  MfgName : String := ""
  DeviceName : String := ""
  ChemistryName : String := ""
  Major : Int := 0
  Minor : Int := 0
  Build : Int := 0
  LdsVer : String := ""
  LdsSerial : String := ""
  LdsCPU : String := ""
  LdsBuildNum : String := ""
  BootLoaderVersion : Int := 0
  UIBoardSWVer : Int := 0
  UIBoardHWVer : Int := 0
  QAState : Int := 0
  Manufacturer : Int := 0
  DriverVersion : Int := 0
  DriverID : Int := 0
  UltrasonicSW : Int := 0
  UltrasonicHW : Int := 0
  BlowerHW : Int := 0
  BlowerSWMajor : Int := 0
  BlowerSWMinor : Int := 0
  HouseCleaning : cleaning := {}
  SpotCleaning : cleaning := {}
  TotalCleanedArea : Float := 0
  TotalCleaningTime : Int := 0
  AverageCleanedArea : Float := 0
  AverageCleaningTime : Int := 0
  History : List history := []

/-- Response struct of nucleo.go; the Go `Error interface{}` field holds
an arbitrary decoded JSON value and is embedded as an atomic optional
string. -/
structure Response where
  Version : Int := 0
  ReqID : reqIDBytes := none
  Result : String := ""
  Data : data := {}
  State : Int := 0
  Action : Int := 0
  Error : Option String := none
  Alert : String := ""
  Cleaning : cleaning := {}
  Details : details := {}
  AvailableCommands : availableCommands := {}
  AvailableServices : availableServices := {}
  Meta : meta := {}

/-! ## Nucleo command dispatch (nucleo.go exec and checkID)

The HTTP round trip is an external collaborator: it is passed in as a
function from the built request to the decoded response (or a transport
or decode error).  Header attachment and URL construction are embedded;
URL percent-escaping is not modelled (the claims address the path). -/

/-- Model of an http.Request as built by this client; `query` carries the
url.Values placed in the URL's RawQuery. -/
structure HttpRequest where
  method : String := ""
  url : String := ""
  query : List (String × List String) := []
  headers : List (String × String) := []
  body : Option String := none
deriving DecidableEq

/-- Header.Set: replace any previous value of the key. -/
def headerSet (hs : List (String × String)) (k v : String) : List (String × String) :=
  hs.filter (fun kv => kv.1 ≠ k) ++ [(k, v)]

/-- Header.Get: first value of the key. -/
def headerGet (hs : List (String × String)) (k : String) : Option String :=
  (hs.find? (fun kv => kv.1 = k)).map (fun kv => kv.2)

/-- addHeaders together with the authorization helper (nucleo.go): set
Accept, Date (the formatted timestamp, supplied by the caller since the
clock is external) and the NEATOAPP signature header, whose value is the
lowercase hex (fmt %x) of the HMAC digest. -/
def request.addHeaders (a : request) (req : HttpRequest) (o : Robot) (ts : String) : HttpRequest :=
  { req with headers :=
      (headerSet (headerSet (headerSet req.headers "Accept" nucleoAcceptHeader) "Date" ts)
        "Authorization" ("NEATOAPP " ++ String.mk (hexEncode (o.sign a ts)))) }

/-- Device-scoped message path of exec (nucleo.go). -/
def nucleoExecPath (r : Robot) : String :=
  pathJoin ["vendors/neato/robots", r.Serial, "messages"]

/-- The POST request exec builds: nucleo URL from scheme, host and the
device-scoped path, marshalled envelope as body, signer headers attached. -/
def Robot.execRequest (r : Robot) (a : request) (ts : String) : HttpRequest :=
  request.addHeaders a
    { method := "POST",
      url := scheme ++ "://" ++ nucleoHost ++ "/" ++ nucleoExecPath r,
      headers := [],
      body := some (marshalRequest a) }
    r ts

/-- Go string() conversion of a possibly-nil byte slice (a nil slice and
an empty one convert to the same empty string). -/
def sliceStr : reqIDBytes → List Nat
  | none => []
  | some bs => bs

/-- checkID (nucleo.go): compare the string forms of the response and
request identifiers; a mismatch is the integrity error. -/
def Response.checkID (resp : Response) (a : request) : Except String Response :=
  if sliceStr resp.ReqID ≠ sliceStr a.ReqID then .error "conflicting ReqID value"
  else .ok resp

/-- exec (nucleo.go): marshal the envelope, build and sign the POST
request, run the round trip, and validate the echoed identifier. -/
def Robot.exec (r : Robot) (transport : HttpRequest → Except String Response)
    (ts : String) (a : request) : Except String Response :=
  match transport (r.execRequest a ts) with
  | .error e => .error e
  | .ok result => result.checkID a

/-- Claim C2: when the transport yields a decoded response, dispatch
returns it exactly when its reqId (as a byte string) equals the
envelope's; on mismatch it returns the integrity error and no response. -/
theorem exec_reqid_correlation (transport : HttpRequest → Except String Response)
    (r : Robot) (a : request) (ts : String) (resp : Response)
    (h : transport (r.execRequest a ts) = .ok resp) :
    (r.exec transport ts a = .ok resp ↔ sliceStr resp.ReqID = sliceStr a.ReqID) ∧
    (sliceStr resp.ReqID ≠ sliceStr a.ReqID →
      r.exec transport ts a = .error "conflicting ReqID value") := by
  unfold Robot.exec
  rw [h]
  unfold Response.checkID
  by_cases heq : sliceStr resp.ReqID = sliceStr a.ReqID
  · simp [heq]
  · simp [heq]

/-- Concrete response echoing the identifier bytes [97]. -/
def respSample : Response := { ReqID := some [97] }

/-- Concrete envelope whose identifier bytes are [98] (mismatch). -/
def reqMismatch : request := { ReqID := some [98], Cmd := "findMe" }

/-- Concrete envelope whose identifier bytes are [97] (match). -/
def reqMatch : request := { ReqID := some [97], Cmd := "findMe" }

/-- Witness for the claim C2 theorem: a stub transport echoing a wrong
reqId makes dispatch fail with the integrity error, and one echoing the
right reqId makes dispatch return the response. -/
theorem exec_reqid_correlation_witness :
    Robot.exec {} (fun _ => .ok respSample) "Mon, 02 Jan 2006 15:04:05 MST" reqMismatch =
        .error "conflicting ReqID value" ∧
    Robot.exec {} (fun _ => .ok respSample) "Mon, 02 Jan 2006 15:04:05 MST" reqMatch =
        .ok respSample := by
  constructor
  · exact (exec_reqid_correlation (fun _ => .ok respSample) {} reqMismatch
      "Mon, 02 Jan 2006 15:04:05 MST" respSample rfl).2 (by decide)
  · exact (exec_reqid_correlation (fun _ => .ok respSample) {} reqMatch
      "Mon, 02 Jan 2006 15:04:05 MST" respSample rfl).1.mpr (by decide)

/-! ## Beehive session management (beehive.go)

External collaborators appear as parameters: the credential backend as
an `Except` outcome, the HTTP round trip plus JSON decode as a function
from the transport client and the built request to the decoded body. -/

/-- credentials struct of the credential file. -/
structure credentials where
  Username : String := ""
  Password : String := ""
deriving DecidableEq

/-- Atomic model of an http.Client value; sessions hold one and identity
is tracked through this tag. -/
structure Client where
  clientId : Nat := 0
deriving DecidableEq

/-- Session struct of beehive.go; `client` is the unexported transport
binding, untouched by JSON decoding. -/
structure Session where
  AccessToken : String := ""
  CurrentTime : GoTime := {}
  client : Client := {}
deriving DecidableEq

/-- Decoded body of a session-creation response: the JSON fields
access_token and current_time that decode into a Session. -/
structure sessionWire where
  access_token : String := ""
  current_time : GoTime := {}
deriving DecidableEq

/-- Query value list of token.queryValues, given the retrieved
credentials (url.Values maps keys to value lists). -/
def qvList (t : token) (c : credentials) : List (String × List String) :=
  [("platform", [platform]),
   ("token", [tokenString (some t)]),
   ("email", [c.Username]),
   ("password", [c.Password])]

/-- queryValues (beehive.go): retrieve credentials from the external
backend, then build the session query values; a lookup failure
propagates. -/
def token.queryValues (t : token) (getCred : Except String credentials) :
    Except String (List (String × List String)) :=
  match getCred with
  | .error e => .error e
  | .ok c => .ok (qvList t c)

/-- Lookup in url.Values. -/
def valuesGet (vs : List (String × List String)) (k : String) : Option (List String) :=
  (vs.find? (fun kv => kv.1 = k)).map (fun kv => kv.2)

/-- The session-creation POST request that both NewSession and Refresh
build (beehive.go lines 53-62 and 86-95 are identical): sessions path on
the Beehive host, the query values, and — as the source does — the
Nucleo Accept header. -/
def sessionsRequest (t : token) (c : credentials) : HttpRequest :=
  { method := "POST",
    url := scheme ++ "://" ++ beehiveHost ++ "/sessions",
    query := qvList t c,
    headers := headerSet [] "Accept" nucleoAcceptHeader,
    body := none }

/-- NewSession (beehive.go): fresh token, credentials, session-creation
call with a fresh zero-value client, decode into a fresh Session (whose
client is the zero value). -/
def NewSession (randRead : Except String (List Nat)) (getCred : Except String credentials)
    (transport : Client → HttpRequest → Except String sessionWire) : Except String Session :=
  match newToken randRead with
  | .error e => .error e
  | .ok t =>
    match getCred with
    | .error e => .error e
    | .ok c =>
      match transport {} (sessionsRequest t c) with
      | .error e => .error e
      | .ok w => .ok { AccessToken := w.access_token, CurrentTime := w.current_time, client := {} }

/-- Refresh (beehive.go): same token, credential and call sequence, but
the round trip runs on the session's own client and the response is
decoded into the existing Session value, overwriting only the exported
JSON fields. -/
def Session.Refresh (s : Session) (randRead : Except String (List Nat))
    (getCred : Except String credentials)
    (transport : Client → HttpRequest → Except String sessionWire) : Except String Session :=
  match newToken randRead with
  | .error e => .error e
  | .ok t =>
    match getCred with
    | .error e => .error e
    | .ok c =>
      match transport s.client (sessionsRequest t c) with
      | .error e => .error e
      | .ok w => .ok { s with AccessToken := w.access_token, CurrentTime := w.current_time }

/-- bearer (beehive.go). -/
def Session.bearer (s : Session) : String := "Bearer " ++ s.AccessToken

/-- setHeaders (beehive.go): Beehive Accept header plus bearer token. -/
def Session.setHeaders (s : Session) (req : HttpRequest) : HttpRequest :=
  { req with headers :=
      (headerSet (headerSet req.headers "Accept" beehiveAcceptHeader) "Authorization" s.bearer) }

/-- The GET request Session.exec builds for a Beehive path (the scheme is
the "https" literal of beehive.go line 211). -/
def Session.execRequest (s : Session) (method p : String) : HttpRequest :=
  s.setHeaders
    { method := method, url := "https" ++ "://" ++ beehiveHost ++ "/" ++ p,
      headers := [], body := none }

/-- Request built by GetUser. -/
def Session.getUserRequest (s : Session) : HttpRequest :=
  s.execRequest "GET" "users/me"

/-- Request built by ListRobots. -/
def Session.listRobotsRequest (s : Session) : HttpRequest :=
  s.execRequest "GET" "users/me/robots"

/-- Request built by GetRobotMap. -/
def Session.getRobotMapRequest (s : Session) (robot id : String) : HttpRequest :=
  s.execRequest "GET" (pathJoin ["users/me/robots", robot, "maps", id])

/-- Request built by ListRobotMaps. -/
def Session.listRobotMapsRequest (s : Session) (robot : String) : HttpRequest :=
  s.execRequest "GET" (pathJoin ["users/me/robots", robot, "maps"])

/-- Request built by ListRobotPersistentMaps. -/
def Session.listRobotPersistentMapsRequest (s : Session) (robot : String) : HttpRequest :=
  s.execRequest "GET" (pathJoin ["users/me/robots", robot, "persistent_maps"])

/-- Claim C6: Refresh overwrites AccessToken and CurrentTime in place
from the decoded response while the session's client is unchanged, and
the refresh round trip runs on that same client (the outcome depends on
the transport only through its behaviour at the session's own client). -/
theorem refresh_in_place_preserves_client (s : Session) (randRead : Except String (List Nat))
    (getCred : Except String credentials)
    (transport : Client → HttpRequest → Except String sessionWire)
    (t : token) (c : credentials) (w : sessionWire)
    (h1 : newToken randRead = .ok t) (h2 : getCred = .ok c)
    (h3 : transport s.client (sessionsRequest t c) = .ok w) :
    s.Refresh randRead getCred transport =
      .ok { AccessToken := w.access_token, CurrentTime := w.current_time, client := s.client } ∧
    ∀ transport2 : Client → HttpRequest → Except String sessionWire,
      (∀ req, transport2 s.client req = transport s.client req) →
      s.Refresh randRead getCred transport2 = s.Refresh randRead getCred transport := by
  constructor
  · unfold Session.Refresh
    rw [h1, h2]
    dsimp only
    rw [h3]
  · intro transport2 hagree
    unfold Session.Refresh
    rw [h1, h2]
    dsimp only
    rw [hagree]

/-- Witness for the claim C6 theorem at a concrete session, token and
stub transport. -/
theorem refresh_in_place_preserves_client_witness :
    Session.Refresh { AccessToken := "old", client := { clientId := 7 } }
        (.ok (List.replicate 32 0)) (.ok { Username := "u", Password := "p" })
        (fun _ _ => .ok { access_token := "new", current_time := { unixNano := 5 } }) =
      .ok { AccessToken := "new", CurrentTime := { unixNano := 5 }, client := { clientId := 7 } } := by
  exact (refresh_in_place_preserves_client
    { AccessToken := "old", client := { clientId := 7 } }
    (.ok (List.replicate 32 0)) (.ok { Username := "u", Password := "p" })
    (fun _ _ => .ok { access_token := "new", current_time := { unixNano := 5 } })
    ⟨String.mk (hexEncode (List.replicate 32 0))⟩ { Username := "u", Password := "p" }
    { access_token := "new", current_time := { unixNano := 5 } }
    rfl rfl rfl).1

/-- Claim C7: every Beehive data-retrieval request carries an
Authorization header that is exactly "Bearer " followed by the session's
access token. -/
theorem beehive_requests_bearer (s : Session) (robot id : String)
    (_hne : s.AccessToken ≠ "") :
    headerGet (s.getUserRequest).headers "Authorization" = some ("Bearer " ++ s.AccessToken) ∧
    headerGet (s.listRobotsRequest).headers "Authorization" = some ("Bearer " ++ s.AccessToken) ∧
    headerGet (s.getRobotMapRequest robot id).headers "Authorization" =
      some ("Bearer " ++ s.AccessToken) ∧
    headerGet (s.listRobotMapsRequest robot).headers "Authorization" =
      some ("Bearer " ++ s.AccessToken) ∧
    headerGet (s.listRobotPersistentMapsRequest robot).headers "Authorization" =
      some ("Bearer " ++ s.AccessToken) := by
  refine ⟨?_, ?_, ?_, ?_, ?_⟩ <;>
    simp [Session.getUserRequest, Session.listRobotsRequest, Session.getRobotMapRequest,
      Session.listRobotMapsRequest, Session.listRobotPersistentMapsRequest,
      Session.execRequest, Session.setHeaders, Session.bearer, headerSet, headerGet]

/-- Witness for the claim C7 theorem at a concrete session. -/
theorem beehive_requests_bearer_witness :
    headerGet ((Session.getUserRequest { AccessToken := "tok123" })).headers "Authorization" =
        some ("Bearer " ++ "tok123") ∧
    headerGet ((Session.listRobotPersistentMapsRequest { AccessToken := "tok123" }
        "SER")).headers "Authorization" = some ("Bearer " ++ "tok123") := by
  have h := beehive_requests_bearer { AccessToken := "tok123" } "SER" "m1" (by decide)
  exact ⟨h.1, h.2.2.2.2⟩

/-- Claim C8: with credentials a@b.com / secret, the session-creation
request carries exactly the query parameters platform=ios, email, and
password, plus a 64-character lowercase hex token. -/
theorem newSession_query_params (bs : List Nat)
    (h1 : bs.length = tokenLength) :
    ∀ t, newToken (.ok bs) = .ok t →
      valuesGet (sessionsRequest t { Username := "a@b.com", Password := "secret" }).query
          "platform" = some ["ios"] ∧
      valuesGet (sessionsRequest t { Username := "a@b.com", Password := "secret" }).query
          "email" = some ["a@b.com"] ∧
      valuesGet (sessionsRequest t { Username := "a@b.com", Password := "secret" }).query
          "password" = some ["secret"] ∧
      (∃ tok, valuesGet (sessionsRequest t { Username := "a@b.com", Password := "secret" }).query
          "token" = some [tok] ∧ tok.length = 64 ∧ ∀ ch ∈ tok.data, ch ∈ hexTable) ∧
      ((sessionsRequest t { Username := "a@b.com", Password := "secret" }).query.map
          (fun kv => kv.1)) = ["platform", "token", "email", "password"] := by
  intro t ht
    ;
  have ht' : t = ⟨String.mk (hexEncode bs)⟩ := by
    simpa [newToken] using ht.symm
  subst ht'
  refine ⟨by simp [sessionsRequest, qvList, valuesGet, platform], ?_, ?_, ?_, ?_⟩
  · simp [sessionsRequest, qvList, valuesGet]
  · simp [sessionsRequest, qvList, valuesGet]
  · refine ⟨String.mk (hexEncode bs), ?_, ?_, ?_⟩
    · simp [sessionsRequest, qvList, valuesGet, tokenString]
    · show (String.mk (hexEncode bs)).length = 64
      have := length_hexEncode bs
      rw [tokenLength] at h1
      simp only [String.length]
      omega
    · intro ch hch
      exact mem_hexEncode hch
  · simp [sessionsRequest, qvList]

/-- Witness for the claim C8 theorem at a concrete entropy outcome. -/
theorem newSession_query_params_witness :
    valuesGet (sessionsRequest ⟨String.mk (hexEncode (List.replicate 32 255))⟩
        { Username := "a@b.com", Password := "secret" }).query "platform" = some ["ios"] ∧
    (∃ tok, valuesGet (sessionsRequest ⟨String.mk (hexEncode (List.replicate 32 255))⟩
        { Username := "a@b.com", Password := "secret" }).query "token" = some [tok] ∧
      tok.length = 64 ∧ ∀ ch ∈ tok.data, ch ∈ hexTable) := by
  have h := newSession_query_params (List.replicate 32 255) (by decide)
    ⟨String.mk (hexEncode (List.replicate 32 255))⟩ rfl
  exact ⟨h.1, h.2.2.2.1⟩

/-- Claim C10: the session-creation request built by NewSession and
Refresh carries the Nucleo Accept media type, which differs from the
Beehive media type that every other Beehive call sends. -/
theorem sessions_accept_is_nucleo (t : token) (c : credentials) (s : Session)
    (method p : String) :
    headerGet (sessionsRequest t c).headers "Accept" = some "application/vnd.neato.nucleo.v1" ∧
    headerGet (sessionsRequest t c).headers "Accept" = some nucleoAcceptHeader ∧
    headerGet (s.execRequest method p).headers "Accept" = some beehiveAcceptHeader ∧
    nucleoAcceptHeader ≠ beehiveAcceptHeader := by
  refine ⟨?_, ?_, ?_, by decide⟩
  · simp [sessionsRequest, headerSet, headerGet, nucleoAcceptHeader]
  · simp [sessionsRequest, headerSet, headerGet]
  · simp [Session.execRequest, Session.setHeaders, headerSet, headerGet, beehiveAcceptHeader,
      Session.bearer]

/-! ## path.Clean is the identity on well-formed command paths -/

theorem splitSlash_ne_nil (cs : List Char) : splitSlash cs ≠ [] := by
  cases cs with
  | nil => simp [splitSlash]
  | cons c rest =>
    simp only [splitSlash]
    split
    · simp
    · split <;> simp

theorem splitSlash_no_slash (a : List Char) (h : '/' ∉ a) : splitSlash a = [a] := by
  induction a with
  | nil => rfl
  | cons c rest ih =>
    have hc : ¬ c = '/' := fun hh => h (hh ▸ List.mem_cons_self c rest)
    have hr : '/' ∉ rest := fun hm => h (List.mem_cons_of_mem c hm)
    simp [splitSlash, hc, ih hr]

theorem splitSlash_append (a r : List Char) (h : '/' ∉ a) :
    splitSlash (a ++ '/' :: r) = a :: splitSlash r := by
  induction a with
  | nil => simp [splitSlash]
  | cons c rest ih =>
    have hc : ¬ c = '/' := fun hh => h (hh ▸ List.mem_cons_self c rest)
    have hr : '/' ∉ rest := fun hm => h (List.mem_cons_of_mem c hm)
    simp [splitSlash, hc, ih hr]

theorem joinSegs_cons_cons (x s : List Char) (ss : List (List Char)) :
    joinSegs ((x ++ s) :: ss) = x ++ joinSegs (s :: ss) ∨ ss = [] := by
  cases ss with
  | nil => exact Or.inr rfl
  | cons y ys => exact Or.inl (by simp [joinSegs])

theorem joinSegs_splitSlash (cs : List Char) : joinSegs (splitSlash cs) = cs := by
  induction cs with
  | nil => rfl
  | cons c rest ih =>
    by_cases hc : c = '/'
    · subst hc
      obtain ⟨s, ss, hrest⟩ := List.exists_cons_of_ne_nil (splitSlash_ne_nil rest)
      simp only [splitSlash, if_pos rfl, hrest]
      show joinSegs ([] :: s :: ss) = '/' :: rest
      rw [show joinSegs ([] :: s :: ss) = [] ++ '/' :: joinSegs (s :: ss) from rfl]
      rw [← hrest, ih]
      rfl
    · obtain ⟨s, ss, hrest⟩ := List.exists_cons_of_ne_nil (splitSlash_ne_nil rest)
      simp only [splitSlash, if_neg hc, hrest]
      have hstep : joinSegs ((c :: s) :: ss) = c :: joinSegs (s :: ss) := by
        cases ss with
        | nil => rfl
        | cons y ys => simp [joinSegs]
      rw [hstep, ← hrest, ih]

theorem cleanStep_good (rooted : Bool) (st : List (List Char)) (seg : List Char)
    (h1 : seg ≠ []) (h2 : seg ≠ ['.']) (h3 : seg ≠ ['.', '.']) :
    cleanStep rooted st seg = seg :: st := by
  simp [cleanStep, h1, h2, h3]

theorem foldl_cleanStep_good (rooted : Bool) (ss : List (List Char)) (st : List (List Char))
    (h : ∀ s ∈ ss, s ≠ [] ∧ s ≠ ['.'] ∧ s ≠ ['.', '.']) :
    ss.foldl (cleanStep rooted) st = ss.reverse ++ st := by
  induction ss generalizing st with
  | nil => simp
  | cons x rest ih =>
    have hx := h x (List.mem_cons_self x rest)
    rw [List.foldl_cons, cleanStep_good rooted st x hx.1 hx.2.1 hx.2.2,
      ih (x :: st) (fun s hs => h s (List.mem_cons_of_mem x hs))]
    simp

theorem pathCleanChars_id (cs : List Char)
    (h : ∀ s ∈ splitSlash cs, s ≠ [] ∧ s ≠ ['.'] ∧ s ≠ ['.', '.']) :
    pathCleanChars cs = cs := by
  cases cs with
  | nil => exact absurd (h [] (by simp [splitSlash])).1 (by simp)
  | cons c rest =>
    have hc : c ≠ '/' := by
      intro hc
      subst hc
      exact (h [] (by simp [splitSlash])).1 rfl
    have hrooted : ¬ (((c :: rest : List Char).head? ) = some '/') := by simp [hc]
    unfold pathCleanChars
    simp only [foldl_cleanStep_good _ _ _ h, List.append_nil, List.reverse_reverse,
      joinSegs_splitSlash]
    rw [if_neg hrooted]
    rw [if_neg (by simp)]
    simp

/-- Claim C9: the Nucleo signature is computed over the signing string
that starts with the lowercased serial, while the message path carries
the serial in its original, unmodified case (for serial numbers that are
plain path segments: non-empty, no slash, not a dot segment). -/
theorem signing_lowercases_but_path_keeps_case (r : Robot) (req : request) (ts : String)
    (h1 : '/' ∉ r.Serial.data) (h2 : r.Serial ≠ "") (h3 : r.Serial ≠ ".")
    (h4 : r.Serial ≠ "..") :
    r.signingString req ts = asciiToLower r.Serial ++ "\n" ++ ts ++ "\n" ++ marshalRequest req ∧
    nucleoExecPath r = "vendors/neato/robots/" ++ r.Serial ++ "/messages" := by
  refine ⟨rfl, ?_⟩
  have hS1 : r.Serial.data ≠ [] := fun hh => h2 (String.ext hh)
  have hS3 : r.Serial.data ≠ ['.'] := fun hh => h3 (String.ext hh)
  have hS4 : r.Serial.data ≠ ['.', '.'] := fun hh => h4 (String.ext hh)
  apply String.ext
  have hV : ("vendors/neato/robots" : String).data =
      "vendors".data ++ '/' :: ("neato".data ++ '/' :: "robots".data) := by decide
  have hbig : ("vendors/neato/robots" ++ "/" ++ (r.Serial ++ "/" ++ "messages")).data =
      "vendors".data ++ '/' :: ("neato".data ++ '/' :: ("robots".data ++ '/' ::
        (r.Serial.data ++ '/' :: "messages".data))) := by
    simp only [String.data_append, hV, List.append_assoc, List.cons_append,
      List.singleton_append]
    rfl
  have hsplit : splitSlash (("vendors/neato/robots" ++ "/" ++
      (r.Serial ++ "/" ++ "messages")).data) =
      ["vendors".data, "neato".data, "robots".data, r.Serial.data, "messages".data] := by
    rw [hbig, splitSlash_append _ _ (by decide), splitSlash_append _ _ (by decide),
      splitSlash_append _ _ (by decide), splitSlash_append _ _ h1,
      splitSlash_no_slash _ (by decide)]
  have hgood : ∀ s ∈ splitSlash (("vendors/neato/robots" ++ "/" ++
      (r.Serial ++ "/" ++ "messages")).data), s ≠ [] ∧ s ≠ ['.'] ∧ s ≠ ['.', '.'] := by
    rw [hsplit]
    intro s hs
    simp only [List.mem_cons, List.not_mem_nil, or_false] at hs
    rcases hs with hs | hs | hs | hs | hs
    · exact hs ▸ ⟨by decide, by decide, by decide⟩
    · exact hs ▸ ⟨by decide, by decide, by decide⟩
    · exact hs ▸ ⟨by decide, by decide, by decide⟩
    · exact hs ▸ ⟨hS1, hS3, hS4⟩
    · exact hs ▸ ⟨by decide, by decide, by decide⟩
  show (nucleoExecPath r).data = _
  rw [nucleoExecPath, pathJoin]
  rw [if_neg (by decide)]
  show (pathClean (joinSlash ["vendors/neato/robots", r.Serial, "messages"])).data = _
  rw [show joinSlash ["vendors/neato/robots", r.Serial, "messages"] =
    "vendors/neato/robots" ++ "/" ++ (r.Serial ++ "/" ++ "messages") from rfl]
  rw [pathClean]
  show pathCleanChars _ = _
  rw [pathCleanChars_id _ hgood, hbig]
  simp [String.data_append, List.append_assoc, List.cons_append, List.singleton_append]

/-- Witness for the claim C9 theorem at a mixed-case serial. -/
theorem signing_lowercases_but_path_keeps_case_witness :
    Robot.signingString { Serial := "ABC123", SecretKey := "deadbeef" } { Cmd := "findMe" }
        "Mon, 02 Jan 2006 15:04:05 MST" =
      asciiToLower "ABC123" ++ "\n" ++ "Mon, 02 Jan 2006 15:04:05 MST" ++ "\n" ++
        marshalRequest { Cmd := "findMe" } ∧
    nucleoExecPath { Serial := "ABC123", SecretKey := "deadbeef" } =
      "vendors/neato/robots/" ++ "ABC123" ++ "/messages" := by
  exact signing_lowercases_but_path_keeps_case
    { Serial := "ABC123", SecretKey := "deadbeef" } { Cmd := "findMe" }
    "Mon, 02 Jan 2006 15:04:05 MST" (by decide) (by decide) (by decide) (by decide)

/-! ## Unique parsing of the marshalled envelope

To show that distinct envelopes marshal to distinct bodies, a parser is
built for exactly the grammar `marshalRequestChars` emits, and shown to
be a left inverse of marshalling.  Injectivity of the marshaller (and
hence signing-string sensitivity to every envelope field) follows. -/

/-- Consume an expected literal prefix. -/
def dropLit : List Char → List Char → Option (List Char)
  | [], cs => some cs
  | _ :: _, [] => none
  | l :: ls, c :: cs => if c = l then dropLit ls cs else none

theorem dropLit_append (l cs : List Char) : dropLit l (l ++ cs) = some cs := by
  induction l with
  | nil => rfl
  | cons x xs ih => simp [dropLit, ih]

theorem dropLit_ne_head (l c : Char) (cs rest : List Char) (h : c ≠ l) :
    dropLit (l :: rest) (c :: cs) = none := by
  simp [dropLit, h]

/-- Parse a JSON string body (after the opening quote) up to the closing
quote, undoing the escapes `escChar` can emit. -/
def parseStrBody : List Char → Option (List Char × List Char)
  | [] => none
  | c :: rest =>
    if c = '"' then some ([], rest)
    else if c = '\\' then
      match rest with
      | 'u' :: h1 :: h2 :: h3 :: h4 :: rest2 =>
        match parseStrBody rest2 with
        | some (s, r) =>
          some (Char.ofNat (hexVal h1 * 4096 + hexVal h2 * 256 + hexVal h3 * 16 + hexVal h4)
            :: s, r)
        | none => none
      | e :: rest2 =>
        match parseStrBody rest2 with
        | some (s, r) =>
          some ((if e = 'n' then '\n' else if e = 'r' then '\r' else if e = 't' then '\t'
            else e) :: s, r)
        | none => none
      | [] => none
    else
      match parseStrBody rest with
      | some (s, r) => some (c :: s, r)
      | none => none

theorem parseStrBody_quote (rest : List Char) : parseStrBody ('"' :: rest) = some ([], rest) := by
  rw [parseStrBody.eq_def]
  simp

theorem parseStrBody_escStr (s rest : List Char) :
    parseStrBody (escStr s ++ '"' :: rest) = some (s, rest) := by
  induction s with
  | nil => simpa [escStr] using parseStrBody_quote rest
  | cons c cs ih =>
    have hstep : escStr (c :: cs) = escChar c ++ escStr cs := by
      simp [escStr]
    rw [hstep, List.append_assoc]
    unfold escChar
    split_ifs with h1 h2 h3 h4 h5 h6 h7 h8 h9
    · subst h1
      rw [List.cons_append, List.cons_append, List.nil_append, parseStrBody.eq_def]
      simp [ih]
    · subst h2
      rw [List.cons_append, List.cons_append, List.nil_append, parseStrBody.eq_def]
      simp [ih]
    · subst h3
      rw [List.cons_append, List.cons_append, List.nil_append, parseStrBody.eq_def]
      simp [ih]
    · subst h4
      rw [List.cons_append, List.cons_append, List.nil_append, parseStrBody.eq_def]
      simp [ih]
    · subst h5
      rw [List.cons_append, List.cons_append, List.nil_append, parseStrBody.eq_def]
      simp [ih]
    · have e1 : hexVal (hexDig (c.toNat / 16)) = c.toNat / 16 := hexVal_hexDig _ (by omega)
      have e2 : hexVal (hexDig (c.toNat % 16)) = c.toNat % 16 := hexVal_hexDig _ (by omega)
      simp only [List.cons_append, List.nil_append]
      rw [parseStrBody.eq_def]
      simp only [ih]
      simp [e1, e2]
      rw [show hexVal '0' = 0 from by decide]
      have e3 : 0 * 4096 + 0 * 256 + c.toNat / 16 * 16 + c.toNat % 16 = c.toNat := by omega
      rw [e3, charOfNat_toNat]
    · rcases h7 with h | h | h <;>
        (subst h
         simp only [List.cons_append, List.nil_append]
         rw [parseStrBody.eq_def]
         simp only [ih]
         simp
         decide)
    · have hc : c = Char.ofNat 0x2028 := by
        rw [← h8, charOfNat_toNat]
      subst hc
      simp only [List.cons_append, List.nil_append]
      rw [parseStrBody.eq_def]
      simp only [ih]
      simp
      decide
    · have hc : c = Char.ofNat 0x2029 := by
        rw [← h9, charOfNat_toNat]
      subst hc
      simp only [List.cons_append, List.nil_append]
      rw [parseStrBody.eq_def]
      simp only [ih]
      simp
      decide
    · simp only [List.cons_append, List.nil_append]
      rw [parseStrBody.eq_def]
      simp [h1, h2, ih]

/-- Parsing a quote-free, backslash-free text up to the closing quote
returns the text (used for the base64 payload). -/
theorem parseStrBody_plain (l rest : List Char) (h : ∀ c ∈ l, c ≠ '"' ∧ c ≠ '\\') :
    parseStrBody (l ++ '"' :: rest) = some (l, rest) := by
  induction l with
  | nil => simpa using parseStrBody_quote rest
  | cons c cs ih =>
    have hc := h c (List.mem_cons_self c cs)
    rw [List.cons_append, parseStrBody.eq_def]
    simp [hc.1, hc.2, ih (fun x hx => h x (List.mem_cons_of_mem c hx))]

/-- Parse a JSON string literal with its quotes. -/
def parseJStr : List Char → Option (List Char × List Char)
  | [] => none
  | c :: rest => if c = '"' then parseStrBody rest else none

theorem parseJStr_renderString (s : String) (rest : List Char) :
    parseJStr (renderString s ++ rest) = some (s.data, rest) := by
  have : renderString s ++ rest = '"' :: (escStr s.data ++ '"' :: rest) := by
    simp [renderString]
  rw [this]
  simp [parseJStr, parseStrBody_escStr]

/-! ### Numbers -/

theorem natToChars_ne_nil (n : Nat) : natToChars n ≠ [] := by
  rw [natToChars]
  split <;> simp

theorem hexDig_digit : ∀ k < 10, (hexDig k).isDigit = true := by decide

theorem hexDig_val : ∀ k < 10, (hexDig k).toNat - 48 = k := by decide

theorem natToChars_digits (n : Nat) : ∀ c ∈ natToChars n, c.isDigit = true := by
  induction n using Nat.strong_induction_on with
  | _ n ih =>
    rw [natToChars]
    split
    · intro c hc
      simp only [List.mem_singleton] at hc
      exact hc ▸ hexDig_digit n (by omega)
    · intro c hc
      rcases List.mem_append.mp hc with hc | hc
      · exact ih (n / 10) (Nat.div_lt_self (by omega) (by omega)) c hc
      · simp only [List.mem_singleton] at hc
        exact hc ▸ hexDig_digit (n % 10) (by omega)

/-- Value of a digit sequence. -/
def digitsVal (ds : List Char) : Nat := ds.foldl (fun acc c => acc * 10 + (c.toNat - 48)) 0

theorem foldl_natToChars (n : Nat) : ∀ acc : Nat,
    (natToChars n).foldl (fun acc c => acc * 10 + (c.toNat - 48)) acc =
      acc * 10 ^ (natToChars n).length + n := by
  induction n using Nat.strong_induction_on with
  | _ n ih =>
    intro acc
    rw [natToChars]
    split
    · next h =>
      simp [List.foldl_cons, hexDig_val n h]
    · next h =>
      rw [List.foldl_append, ih (n / 10) (Nat.div_lt_self (by omega) (by omega)) acc]
      simp only [List.foldl_cons, List.foldl_nil, List.length_append, List.length_singleton]
      rw [hexDig_val (n % 10) (by omega)]
      have hmul : (acc * 10 ^ (natToChars (n / 10)).length + n / 10) * 10 + n % 10 =
          acc * (10 ^ (natToChars (n / 10)).length * 10) + (n / 10 * 10 + n % 10) := by ring
      rw [hmul, pow_succ]
      omega

theorem digitsVal_natToChars (n : Nat) : digitsVal (natToChars n) = n := by
  have := foldl_natToChars n 0
  simpa [digitsVal] using this

theorem takeWhile_all_append (p : Char → Bool) (l r : List Char)
    (hl : ∀ c ∈ l, p c = true) (hr : ∀ c, r.head? = some c → p c = false) :
    (l ++ r).takeWhile p = l ∧ (l ++ r).dropWhile p = r := by
  induction l with
  | nil =>
    cases r with
    | nil => simp
    | cons c r' => simp [List.takeWhile, List.dropWhile, hr c rfl]
  | cons x xs ih =>
    have hx := hl x (List.mem_cons_self x xs)
    have := ih (fun c hc => hl c (List.mem_cons_of_mem x hc))
    simp [List.takeWhile_cons, List.dropWhile_cons, hx, this.1, this.2]

/-- Parse a maximal run of decimal digits. -/
def parseNatPart (cs : List Char) : Option (Nat × List Char) :=
  let ds := cs.takeWhile (fun c => c.isDigit)
  if ds = [] then none
  else some (digitsVal ds, cs.dropWhile (fun c => c.isDigit))

theorem parseNatPart_rt (n : Nat) (rest : List Char)
    (hr : ∀ c, rest.head? = some c → c.isDigit = false) :
    parseNatPart (natToChars n ++ rest) = some (n, rest) := by
  have h := takeWhile_all_append (fun c => c.isDigit) (natToChars n) rest
    (natToChars_digits n) hr
  simp [parseNatPart, h.1, h.2, natToChars_ne_nil, digitsVal_natToChars]

/-- Parse a JSON integer (optional minus, digit run). -/
def parseInt (cs : List Char) : Option (Int × List Char) :=
  match cs with
  | [] => none
  | c :: rest =>
    if c = '-' then (parseNatPart rest).map (fun p => (-(p.1 : Int), p.2))
    else (parseNatPart (c :: rest)).map (fun p => ((p.1 : Int), p.2))

theorem parseInt_rt (i : Int) (rest : List Char)
    (hr : ∀ c, rest.head? = some c → c.isDigit = false) :
    parseInt (renderInt i ++ rest) = some (i, rest) := by
  by_cases hi : i < 0
  · rw [renderInt, if_pos hi, List.cons_append]
    have hnn : ((-i).toNat : Int) = -i := Int.toNat_of_nonneg (by omega)
    simp [parseInt, parseNatPart_rt _ rest hr, hnn]
  · rw [renderInt, if_neg hi]
    obtain ⟨d, ds, hds⟩ := List.exists_cons_of_ne_nil (natToChars_ne_nil i.toNat)
    have hdigit : d.isDigit = true := natToChars_digits i.toNat d (hds ▸ List.mem_cons_self d ds)
    have hdm : d ≠ '-' := by
      intro hh
      rw [hh] at hdigit
      exact absurd hdigit (by decide)
    have hnn : (i.toNat : Int) = i := Int.toNat_of_nonneg (by omega)
    rw [hds, List.cons_append]
    simp only [parseInt, if_neg hdm]
    rw [← List.cons_append, ← hds, parseNatPart_rt _ rest hr]
    simp [hnn]

/-! ### Booleans -/

/-- Parse a JSON boolean. -/
def parseBool (cs : List Char) : Option (Bool × List Char) :=
  match dropLit ['t', 'r', 'u', 'e'] cs with
  | some rest => some (true, rest)
  | none =>
    match dropLit ['f', 'a', 'l', 's', 'e'] cs with
    | some rest => some (false, rest)
    | none => none

theorem parseBool_rt (b : Bool) (rest : List Char) :
    parseBool (renderBool b ++ rest) = some (b, rest) := by
  cases b
  · show parseBool (['f', 'a', 'l', 's', 'e'] ++ rest) = some (false, rest)
    rw [parseBool.eq_def]
    rw [show dropLit ['t', 'r', 'u', 'e'] (['f', 'a', 'l', 's', 'e'] ++ rest) = none from by
      simp [dropLit]]
    rw [dropLit_append]
  · show parseBool (['t', 'r', 'u', 'e'] ++ rest) = some (true, rest)
    rw [parseBool.eq_def]
    rw [dropLit_append]

/-! ### Base64 -/

/-- Numeric value of a base64 alphabet character. -/
def b64val (c : Char) : Nat := b64Table.findIdx (fun d => d = c)

theorem b64val_b64Char : ∀ k < 64, b64val (b64Char k) = k := by decide

theorem b64Char_mem (k : Nat) : b64Char k ∈ b64Table := by
  rcases Nat.lt_or_ge k 64 with h | h
  · interval_cases k <;> decide
  · rw [b64Char, List.getD_eq_default]
    · decide
    · simpa [b64Table] using h

theorem b64Table_chars : ∀ c ∈ b64Table, c ≠ '=' ∧ c ≠ '"' ∧ c ≠ '\\' := by decide

/-- Decode standard base64 as emitted by `b64encode` (no validity checks
beyond the shapes the encoder produces). -/
def b64decode : List Char → Option (List Nat)
  | [] => some []
  | c1 :: c2 :: c3 :: c4 :: rest =>
    if c3 = '=' then some [b64val c1 * 4 + b64val c2 / 16]
    else if c4 = '=' then
      some [b64val c1 * 4 + b64val c2 / 16, b64val c2 % 16 * 16 + b64val c3 / 4]
    else
      (b64decode rest).map (fun bs =>
        (b64val c1 * 4 + b64val c2 / 16) ::
          (b64val c2 % 16 * 16 + b64val c3 / 4) ::
          (b64val c3 % 4 * 64 + b64val c4) :: bs)
  | _ => none

theorem b64decode_encode (bs : List Nat) (h : ∀ b ∈ bs, b < 256) :
    b64decode (b64encode bs) = some bs := by
  induction bs using b64encode.induct with
  | case1 => simp [b64encode, b64decode]
  | case2 a =>
    have ha : a < 256 := h a (by simp)
    rw [b64encode]
    rw [b64decode.eq_def]
    simp only [if_pos rfl]
    rw [b64val_b64Char _ (by omega), b64val_b64Char _ (by omega)]
    have : a / 4 * 4 + a % 4 * 16 / 16 = a := by omega
    rw [this]
    simp
  | case3 a b =>
    have ha : a < 256 := h a (by simp)
    have hb : b < 256 := h b (by simp)
    rw [b64encode]
    rw [b64decode.eq_def]
    have hne : b64Char (b % 16 * 4) ≠ '=' := (b64Table_chars _ (b64Char_mem _)).1
    simp only [if_neg hne, if_pos rfl]
    rw [b64val_b64Char _ (by omega), b64val_b64Char _ (by omega), b64val_b64Char _ (by omega)]
    have e1 : a / 4 * 4 + (a % 4 * 16 + b / 16) / 16 = a := by omega
    have e2 : (a % 4 * 16 + b / 16) % 16 * 16 + b % 16 * 4 / 4 = b := by omega
    rw [e1, e2]
    simp
  | case4 a b c rest ih =>
    have ha : a < 256 := h a (by simp)
    have hb : b < 256 := h b (by simp)
    have hc : c < 256 := h c (by simp)
    have ihh := ih (fun x hx => h x (by simp [hx]))
    rw [b64encode]
    rw [b64decode.eq_def]
    have hne3 : b64Char (b % 16 * 4 + c / 64) ≠ '=' := (b64Table_chars _ (b64Char_mem _)).1
    have hne4 : b64Char (c % 64) ≠ '=' := (b64Table_chars _ (b64Char_mem _)).1
    simp only [if_neg hne3, if_neg hne4, ihh, Option.map_some]
    rw [b64val_b64Char _ (by omega), b64val_b64Char _ (by omega),
      b64val_b64Char _ (by omega), b64val_b64Char _ (by omega)]
    have e1 : a / 4 * 4 + (a % 4 * 16 + b / 16) / 16 = a := by omega
    have e2 : (a % 4 * 16 + b / 16) % 16 * 16 + (b % 16 * 4 + c / 64) / 4 = b := by omega
    have e3 : (b % 16 * 4 + c / 64) % 4 * 64 + c % 64 = c := by omega
    rw [e1, e2, e3]
    simp

theorem mem_b64encode (bs : List Nat) : ∀ c ∈ b64encode bs, c = '=' ∨ c ∈ b64Table := by
  induction bs using b64encode.induct with
  | case1 => simp [b64encode]
  | case2 a =>
    intro c hc
    rw [b64encode] at hc
    simp only [List.mem_cons, List.not_mem_nil, or_false] at hc
    rcases hc with hc | hc | hc | hc <;>
      first
        | exact Or.inr (hc ▸ b64Char_mem _)
        | exact Or.inl hc
  | case3 a b =>
    intro c hc
    rw [b64encode] at hc
    simp only [List.mem_cons, List.not_mem_nil, or_false] at hc
    rcases hc with hc | hc | hc | hc <;>
      first
        | exact Or.inr (hc ▸ b64Char_mem _)
        | exact Or.inl hc
  | case4 a b c rest ih =>
    intro x hx
    rw [b64encode] at hx
    simp only [List.mem_cons] at hx
    rcases hx with hx | hx | hx | hx | hx
    · exact Or.inr (hx ▸ b64Char_mem _)
    · exact Or.inr (hx ▸ b64Char_mem _)
    · exact Or.inr (hx ▸ b64Char_mem _)
    · exact Or.inr (hx ▸ b64Char_mem _)
    · exact ih x hx

/-! ### The reqId field value -/

/-- Parse the reqId field value: null, or a quoted base64 string. -/
def parseReqID (cs : List Char) : Option (reqIDBytes × List Char) :=
  match dropLit ['n', 'u', 'l', 'l'] cs with
  | some rest => some (none, rest)
  | none =>
    match cs with
    | [] => none
    | c :: rest =>
      if c = '"' then
        match parseStrBody rest with
        | some (txt, r) =>
          match b64decode txt with
          | some bs => some (some bs, r)
          | none => none
        | none => none
      else none

theorem parseReqID_rt (v : reqIDBytes) (rest : List Char)
    (h : ∀ bs, v = some bs → ∀ b ∈ bs, b < 256) :
    parseReqID (renderReqID v ++ rest) = some (v, rest) := by
  cases v with
  | none =>
    show parseReqID (['n', 'u', 'l', 'l'] ++ rest) = some (none, rest)
    rw [parseReqID.eq_def, dropLit_append]
  | some bs =>
    have hplain : ∀ c ∈ b64encode bs, c ≠ '"' ∧ c ≠ '\\' := by
      intro c hc
      rcases mem_b64encode bs c hc with hc | hc
      · exact hc ▸ ⟨by decide, by decide⟩
      · exact ⟨(b64Table_chars c hc).2.1, (b64Table_chars c hc).2.2⟩
    have hshape : renderReqID (some bs) ++ rest = '"' :: (b64encode bs ++ '"' :: rest) := by
      simp [renderReqID]
    rw [hshape, parseReqID.eq_def]
    rw [dropLit_ne_head _ _ _ _ (by decide)]
    simp [parseStrBody_plain _ _ hplain, b64decode_encode bs (h bs rfl)]

/-! ### Events -/

/-- String form of `String.mk`: rebuilding a string from its characters. -/
theorem mkData (s : String) : String.mk s.data = s := by
  cases s
  rfl

/-- Key literal as it appears in an object body: quoted name and colon. -/
def keyLit (k : String) : List Char := '"' :: k.data ++ ['"', ':']

theorem parseInt_rt_comma (i : Int) (tail : List Char) :
    parseInt (renderInt i ++ ',' :: tail) = some (i, ',' :: tail) := by
  refine parseInt_rt i _ ?_
  intro c hc
  simp only [List.head?_cons, Option.some.injEq] at hc
  rw [← hc]
  decide

theorem parseInt_rt_rbrace (i : Int) (tail : List Char) :
    parseInt (renderInt i ++ rbrace :: tail) = some (i, rbrace :: tail) := by
  refine parseInt_rt i _ ?_
  intro c hc
  simp only [List.head?_cons, Option.some.injEq] at hc
  rw [← hc]
  decide

/-- Parse one event object. -/
def parseEvent (cs : List Char) : Option (event × List Char) :=
  match dropLit (lbrace :: keyLit "mode") cs with
  | none => none
  | some r1 =>
    match parseInt r1 with
    | none => none
    | some (m, r2) =>
      match dropLit (',' :: keyLit "day") r2 with
      | none => none
      | some r3 =>
        match parseInt r3 with
        | none => none
        | some (d, r4) =>
          match dropLit (',' :: keyLit "startTime") r4 with
          | none => none
          | some r5 =>
            match parseJStr r5 with
            | none => none
            | some (st, r6) =>
              match dropLit (',' :: keyLit "boundaryId") r6 with
              | none => none
              | some r7 =>
                match parseJStr r7 with
                | none => none
                | some (bid, r8) =>
                  match r8 with
                  | [] => none
                  | c :: r9 =>
                    if c = rbrace then
                      some ({ Mode := m, Day := d, StartTime := String.mk st,
                              BoundaryID := String.mk bid }, r9)
                    else none

theorem parseEvent_rt (e : event) (rest : List Char) :
    parseEvent (marshalEventChars e ++ rest) = some (e, rest) := by
  have km : renderString "mode" = ['"', 'm', 'o', 'd', 'e', '"'] := by decide
  have kd : renderString "day" = ['"', 'd', 'a', 'y', '"'] := by decide
  have kst : renderString "startTime" =
    ['"', 's', 't', 'a', 'r', 't', 'T', 'i', 'm', 'e', '"'] := by decide
  have kb : renderString "boundaryId" =
    ['"', 'b', 'o', 'u', 'n', 'd', 'a', 'r', 'y', 'I', 'd', '"'] := by decide
  rw [parseEvent.eq_def]
  simp [marshalEventChars, renderObj, commaSep, km, kd, kst, kb, keyLit, dropLit,
    parseInt_rt_comma, parseJStr_renderString, mkData]

/-! ### Lists of strings and of events -/

/-- Parse comma-separated string elements up to the closing bracket. -/
def parseStrListAux (fuel : Nat) (cs : List Char) : Option (List String × List Char) :=
  match fuel with
  | 0 => none
  | fuel + 1 =>
    match parseJStr cs with
    | none => none
    | some (s, r) =>
      match r with
      | [] => none
      | c :: r2 =>
        if c = ',' then (parseStrListAux fuel r2).map (fun p => (String.mk s :: p.1, p.2))
        else if c = ']' then some ([String.mk s], r2)
        else none

/-- Parse a []string value: null, or a bracketed list. -/
def parseStrList (cs : List Char) : Option (Option (List String) × List Char) :=
  match dropLit ['n', 'u', 'l', 'l'] cs with
  | some rest => some (none, rest)
  | none =>
    match cs with
    | [] => none
    | c :: rest =>
      if c = '[' then
        match rest with
        | [] => none
        | c2 :: rest2 =>
          if c2 = ']' then some (some [], rest2)
          else
            match parseStrListAux rest.length rest with
            | some (xs, r) => some (some xs, r)
            | none => none
      else none

theorem parseStrListAux_rt (xs : List String) (x : String) (rest : List Char) (fuel : Nat)
    (hf : xs.length < fuel) :
    parseStrListAux fuel (commaSep ((x :: xs).map renderString) ++ ']' :: rest) =
      some (x :: xs, rest) := by
  induction xs generalizing x fuel rest with
  | nil =>
    obtain ⟨f, rfl⟩ : ∃ f, fuel = f + 1 := ⟨fuel - 1, by omega⟩
    show parseStrListAux (f + 1) (renderString x ++ ']' :: rest) = some ([x], rest)
    rw [parseStrListAux.eq_def]
    simp [parseJStr_renderString, mkData]
  | cons y ys ih =>
    obtain ⟨f, rfl⟩ : ∃ f, fuel = f + 1 := ⟨fuel - 1, by omega⟩
    have ihy := ih y rest f (by simp only [List.length_cons] at hf; omega)
    simp only [List.map_cons] at ihy
    have hstep : commaSep ((x :: y :: ys).map renderString) ++ ']' :: rest =
        renderString x ++ ',' :: (commaSep ((y :: ys).map renderString) ++ ']' :: rest) := by
      simp [commaSep]
    rw [hstep, parseStrListAux.eq_def]
    simp [parseJStr_renderString, ihy, mkData]

theorem renderString_length (s : String) : 2 ≤ (renderString s).length := by
  simp [renderString]

theorem commaSep_renderString_length (x : String) (xs : List String) :
    xs.length + 1 ≤ (commaSep ((x :: xs).map renderString)).length := by
  induction xs generalizing x with
  | nil =>
    simpa [commaSep] using Nat.le_trans (by omega) (renderString_length x)
  | cons y ys ih =>
    have hx := renderString_length x
    have := ih y
    simp only [List.map_cons, commaSep, List.length_append, List.length_cons] at *
    omega

theorem parseStrList_rt (v : Option (List String)) (rest : List Char) :
    parseStrList (renderStrList v ++ rest) = some (v, rest) := by
  cases v with
  | none =>
    show parseStrList (['n', 'u', 'l', 'l'] ++ rest) = some (none, rest)
    rw [parseStrList.eq_def, dropLit_append]
  | some xs =>
    cases xs with
    | nil =>
      show parseStrList ('[' :: ']' :: rest) = some (some [], rest)
      rw [parseStrList.eq_def]
      rw [dropLit_ne_head _ _ _ _ (by decide)]
      simp
    | cons x xs =>
      obtain ⟨t, ht⟩ : ∃ t, commaSep ((x :: xs).map renderString) = '"' :: t := by
        cases xs with
        | nil => exact ⟨escStr x.data ++ ['"'], by simp [commaSep, renderString]⟩
        | cons y ys =>
          exact ⟨escStr x.data ++ ['"'] ++ ',' :: commaSep ((y :: ys).map renderString),
            by simp [commaSep, renderString]⟩
      have hshape : renderStrList (some (x :: xs)) ++ rest =
          '[' :: ('"' :: (t ++ ']' :: rest)) := by
        simp only [renderStrList, List.cons_append, List.append_assoc, List.singleton_append,
          List.nil_append]
        rw [show commaSep (List.map renderString (x :: xs)) ++ ']' :: rest =
          ('"' :: t) ++ ']' :: rest from by rw [ht]]
        simp
      rw [hshape, parseStrList.eq_def]
      rw [dropLit_ne_head _ _ _ _ (by decide)]
      simp only [if_pos rfl, if_neg (by decide : ¬ ('"' : Char) = ']')]
      have haux : parseStrListAux (('"' :: (t ++ ']' :: rest) : List Char)).length
          ('"' :: (t ++ ']' :: rest)) = some (x :: xs, rest) := by
        rw [show ('"' :: (t ++ ']' :: rest) : List Char) = ('"' :: t) ++ ']' :: rest from by simp]
        rw [← ht]
        exact parseStrListAux_rt xs x rest _ (by
          have h1 := commaSep_renderString_length x xs
          simp only [List.length_append, List.length_cons] at h1 ⊢
          omega)
      simp only [List.length_cons, List.length_append] at haux
      simp [haux]

/-- Parse comma-separated event elements up to the closing bracket. -/
def parseEventListAux (fuel : Nat) (cs : List Char) : Option (List event × List Char) :=
  match fuel with
  | 0 => none
  | fuel + 1 =>
    match parseEvent cs with
    | none => none
    | some (e, r) =>
      match r with
      | [] => none
      | c :: r2 =>
        if c = ',' then (parseEventListAux fuel r2).map (fun p => (e :: p.1, p.2))
        else if c = ']' then some ([e], r2)
        else none

/-- Parse a []event value: null, or a bracketed list. -/
def parseEventList (cs : List Char) : Option (Option (List event) × List Char) :=
  match dropLit ['n', 'u', 'l', 'l'] cs with
  | some rest => some (none, rest)
  | none =>
    match cs with
    | [] => none
    | c :: rest =>
      if c = '[' then
        match rest with
        | [] => none
        | c2 :: rest2 =>
          if c2 = ']' then some (some [], rest2)
          else
            match parseEventListAux rest.length rest with
            | some (xs, r) => some (some xs, r)
            | none => none
      else none

theorem parseEventListAux_rt (xs : List event) (x : event) (rest : List Char) (fuel : Nat)
    (hf : xs.length < fuel) :
    parseEventListAux fuel (commaSep ((x :: xs).map marshalEventChars) ++ ']' :: rest) =
      some (x :: xs, rest) := by
  induction xs generalizing x fuel rest with
  | nil =>
    obtain ⟨f, rfl⟩ : ∃ f, fuel = f + 1 := ⟨fuel - 1, by omega⟩
    show parseEventListAux (f + 1) (marshalEventChars x ++ ']' :: rest) = some ([x], rest)
    rw [parseEventListAux.eq_def]
    simp [parseEvent_rt]
  | cons y ys ih =>
    obtain ⟨f, rfl⟩ : ∃ f, fuel = f + 1 := ⟨fuel - 1, by omega⟩
    have ihy := ih y rest f (by simp only [List.length_cons] at hf; omega)
    simp only [List.map_cons] at ihy
    have hstep : commaSep ((x :: y :: ys).map marshalEventChars) ++ ']' :: rest =
        marshalEventChars x ++ ',' :: (commaSep ((y :: ys).map marshalEventChars) ++
          ']' :: rest) := by
      simp [commaSep]
    rw [hstep, parseEventListAux.eq_def]
    simp [parseEvent_rt, ihy]

theorem marshalEventChars_cons (e : event) : ∃ t, marshalEventChars e = lbrace :: t :=
  ⟨commaSep ([("mode", renderInt e.Mode), ("day", renderInt e.Day),
      ("startTime", renderString e.StartTime),
      ("boundaryId", renderString e.BoundaryID)].map
      (fun kv => renderString kv.1 ++ ':' :: kv.2)) ++ [rbrace], rfl⟩

theorem marshalEventChars_length (e : event) : 2 ≤ (marshalEventChars e).length := by
  simp only [marshalEventChars, renderObj, List.length_append, List.length_cons,
    List.length_singleton]
  omega

theorem commaSep_marshalEvent_length (x : event) (xs : List event) :
    xs.length + 1 ≤ (commaSep ((x :: xs).map marshalEventChars)).length := by
  induction xs generalizing x with
  | nil =>
    simpa [commaSep] using Nat.le_trans (by omega) (marshalEventChars_length x)
  | cons y ys ih =>
    have hx := marshalEventChars_length x
    have := ih y
    simp only [List.map_cons, commaSep, List.length_append, List.length_cons] at *
    omega

theorem parseEventList_rt (v : Option (List event)) (rest : List Char) :
    parseEventList (renderEventList v ++ rest) = some (v, rest) := by
  cases v with
  | none =>
    show parseEventList (['n', 'u', 'l', 'l'] ++ rest) = some (none, rest)
    rw [parseEventList.eq_def, dropLit_append]
  | some xs =>
    cases xs with
    | nil =>
      show parseEventList ('[' :: ']' :: rest) = some (some [], rest)
      rw [parseEventList.eq_def]
      rw [dropLit_ne_head _ _ _ _ (by decide)]
      simp
    | cons x xs =>
      obtain ⟨t, ht⟩ : ∃ t, commaSep ((x :: xs).map marshalEventChars) = lbrace :: t := by
        obtain ⟨t0, ht0⟩ := marshalEventChars_cons x
        cases xs with
        | nil => exact ⟨t0, by simp [commaSep, ht0]⟩
        | cons y ys =>
          exact ⟨t0 ++ ',' :: commaSep ((y :: ys).map marshalEventChars),
            by simp [commaSep, ht0]⟩
      have hshape : renderEventList (some (x :: xs)) ++ rest =
          '[' :: (lbrace :: (t ++ ']' :: rest)) := by
        simp only [renderEventList, List.cons_append, List.append_assoc, List.singleton_append,
          List.nil_append]
        rw [show commaSep (List.map marshalEventChars (x :: xs)) ++ ']' :: rest =
          (lbrace :: t) ++ ']' :: rest from by rw [ht]]
        simp
      rw [hshape, parseEventList.eq_def]
      rw [dropLit_ne_head _ _ _ _ (by decide)]
      simp only [if_pos rfl, if_neg (by decide : ¬ lbrace = ']')]
      have haux : parseEventListAux ((lbrace :: (t ++ ']' :: rest) : List Char)).length
          (lbrace :: (t ++ ']' :: rest)) = some (x :: xs, rest) := by
        rw [show (lbrace :: (t ++ ']' :: rest) : List Char) =
          (lbrace :: t) ++ ']' :: rest from by simp]
        rw [← ht]
        exact parseEventListAux_rt xs x rest _ (by
          have h1 := commaSep_marshalEvent_length x xs
          simp only [List.length_append, List.length_cons] at h1 ⊢
          omega)
      simp only [List.length_cons, List.length_append] at haux
      simp [haux]

/-! ### The Params object and the whole request body -/

theorem escStr_plain (l : List Char) (h : ∀ c ∈ l, escChar c = [c]) : escStr l = l := by
  induction l with
  | nil => rfl
  | cons c cs ih =>
    show escChar c ++ escStr cs = c :: cs
    rw [h c (List.mem_cons_self c cs), ih (fun x hx => h x (List.mem_cons_of_mem c hx))]
    rfl

theorem renderString_plainKey (k : String) (hk : ∀ c ∈ k.data, escChar c = [c]) :
    renderString k = '"' :: k.data ++ ['"'] := by
  simp [renderString, escStr_plain k.data hk]

/-- Params parsing phase 1: opening brace and the three leading ints. -/
def pPhase1 (cs : List Char) : Option ((Int × Int × Int) × List Char) := do
  let r0 ← dropLit (lbrace :: keyLit "category") cs
  let (category, r1) ← parseInt r0
  let r1b ← dropLit (',' :: keyLit "mode") r1
  let (mode, r2) ← parseInt r1b
  let r2b ← dropLit (',' :: keyLit "modifier") r2
  let (modifier, r3) ← parseInt r2b
  some ((category, mode, modifier), r3)

/-- Params parsing phase 2: the five booleans. -/
def pPhase2 (cs : List Char) : Option ((Bool × Bool × Bool × Bool × Bool) × List Char) := do
  let r3b ← dropLit (',' :: keyLit "robotSounds") cs
  let (robotSounds, r4) ← parseBool r3b
  let r4b ← dropLit (',' :: keyLit "dirtbinAlert") r4
  let (dirtbinAlert, r5) ← parseBool r4b
  let r5b ← dropLit (',' :: keyLit "allAlerts") r5
  let (allAlerts, r6) ← parseBool r5b
  let r6b ← dropLit (',' :: keyLit "leds") r6
  let (leds, r7) ← parseBool r6b
  let r7b ← dropLit (',' :: keyLit "buttonClicks") r7
  let (buttonClicks, r8) ← parseBool r7b
  some ((robotSounds, dirtbinAlert, allAlerts, leds, buttonClicks), r8)

/-- Params parsing phase 3: reminder intervals and the clock flag. -/
def pPhase3 (cs : List Char) : Option ((Int × Int × Int × Bool) × List Char) := do
  let r8b ← dropLit (',' :: keyLit "dirtbinAlertReminderInterval") cs
  let (dirtbinARI, r9) ← parseInt r8b
  let r9b ← dropLit (',' :: keyLit "filterChangeReminderInterval") r9
  let (filterCRI, r10) ← parseInt r9b
  let r10b ← dropLit (',' :: keyLit "brushChangeReminderInterval") r10
  let (brushCRI, r11) ← parseInt r10b
  let r11b ← dropLit (',' :: keyLit "clock24h") r11
  let (clock24h, r12) ← parseBool r11b
  some ((dirtbinARI, filterCRI, brushCRI, clock24h), r12)

/-- Params parsing phase 4: locale, locale list, navigation mode and
boundary id. -/
def pPhase4 (cs : List Char) :
    Option ((List Char × Option (List String) × Int × List Char) × List Char) := do
  let r12b ← dropLit (',' :: keyLit "locale") cs
  let (locale, r13) ← parseJStr r12b
  let r13b ← dropLit (',' :: keyLit "availableLocales") r13
  let (availableLocales, r14) ← parseStrList r13b
  let r14b ← dropLit (',' :: keyLit "navigationMode") r14
  let (navigationMode, r15) ← parseInt r14b
  let r15b ← dropLit (',' :: keyLit "boundaryId") r15
  let (boundaryId, r16) ← parseJStr r15b
  some ((locale, availableLocales, navigationMode, boundaryId), r16)

/-- Params parsing phase 5: spot sizes, events and the closing brace. -/
def pPhase5 (cs : List Char) :
    Option ((Int × Int × Option (List event)) × List Char) := do
  let r16b ← dropLit (',' :: keyLit "spotWidth") cs
  let (spotWidth, r17) ← parseInt r16b
  let r17b ← dropLit (',' :: keyLit "spotHeight") r17
  let (spotHeight, r18) ← parseInt r17b
  let r18b ← dropLit (',' :: keyLit "events") r18
  let (events, r19) ← parseEventList r18b
  match r19 with
  | [] => none
  | c :: r20 =>
    if c = rbrace then some ((spotWidth, spotHeight, events), r20) else none

/-- Parse a Params object with its 19 fields in declaration order. -/
def parseParams (cs : List Char) : Option (Params × List Char) := do
  let (t1, r1) ← pPhase1 cs
  let (t2, r2) ← pPhase2 r1
  let (t3, r3) ← pPhase3 r2
  let (t4, r4) ← pPhase4 r3
  let (t5, r5) ← pPhase5 r4
  some ({ Category := t1.1, Mode := t1.2.1, Modifier := t1.2.2,
          RobotSounds := t2.1, DirtbinAlert := t2.2.1, AllAlerts := t2.2.2.1,
          Leds := t2.2.2.2.1, ButtonClicks := t2.2.2.2.2,
          DirtbinAlertReminderInterval := t3.1,
          FilterChangeReminderInterval := t3.2.1,
          BrushChangeReminderInterval := t3.2.2.1, Clock24H := t3.2.2.2,
          Locale := String.mk t4.1, AvailableLocales := t4.2.1,
          NavigationMode := t4.2.2.1, BoundaryID := String.mk t4.2.2.2,
          SpotWidth := t5.1, SpotHeight := t5.2.1, Events := t5.2.2 }, r5)

set_option maxRecDepth 8192 in
set_option maxHeartbeats 3000000 in
theorem parseParams_rt (p : Params) (rest : List Char) :
    parseParams (marshalParamsChars p ++ rest) = some (p, rest) := by
  rw [parseParams.eq_def]
  simp [pPhase1, pPhase2, pPhase3, pPhase4, pPhase5,
    marshalParamsChars, renderObj, commaSep, keyLit, dropLit,
    renderString_plainKey "category" (by decide),
    renderString_plainKey "mode" (by decide),
    renderString_plainKey "modifier" (by decide),
    renderString_plainKey "robotSounds" (by decide),
    renderString_plainKey "dirtbinAlert" (by decide),
    renderString_plainKey "allAlerts" (by decide),
    renderString_plainKey "leds" (by decide),
    renderString_plainKey "buttonClicks" (by decide),
    renderString_plainKey "dirtbinAlertReminderInterval" (by decide),
    renderString_plainKey "filterChangeReminderInterval" (by decide),
    renderString_plainKey "brushChangeReminderInterval" (by decide),
    renderString_plainKey "clock24h" (by decide),
    renderString_plainKey "locale" (by decide),
    renderString_plainKey "availableLocales" (by decide),
    renderString_plainKey "navigationMode" (by decide),
    renderString_plainKey "boundaryId" (by decide),
    renderString_plainKey "spotWidth" (by decide),
    renderString_plainKey "spotHeight" (by decide),
    renderString_plainKey "events" (by decide),
    parseInt_rt_comma, parseBool_rt, parseJStr_renderString, parseStrList_rt,
    parseEventList_rt, mkData]

/-- Request identifier bytes are in byte range (trivially true for the
nil slice). -/
def validReq (r : request) : Prop := ∀ b ∈ sliceStr r.ReqID, b < 256

instance (r : request) : Decidable (validReq r) := by
  unfold validReq
  infer_instance

/-- Parse a whole request body: reqId, cmd, optional params. -/
def parseRequest (cs : List Char) : Option (request × List Char) := do
  let r0 ← dropLit (lbrace :: keyLit "reqId") cs
  let (rid, r1) ← parseReqID r0
  let r1b ← dropLit (',' :: keyLit "cmd") r1
  let (cmd, r2) ← parseJStr r1b
  match r2 with
  | [] => none
  | c :: r3 =>
    if c = rbrace then some ({ ReqID := rid, Cmd := String.mk cmd, Params := none }, r3)
    else if c = ',' then do
      let r4 ← dropLit (keyLit "params") r3
      let (p, r5) ← parseParams r4
      match r5 with
      | [] => none
      | c2 :: r6 =>
        if c2 = rbrace then
          some ({ ReqID := rid, Cmd := String.mk cmd, Params := some p }, r6)
        else none
    else none

theorem parseRequest_rt (r : request) (rest : List Char) (h : validReq r) :
    parseRequest (marshalRequestChars r ++ rest) = some (r, rest) := by
  have hrid : ∀ tail, parseReqID (renderReqID r.ReqID ++ tail) = some (r.ReqID, tail) := by
    intro tail
    refine parseReqID_rt r.ReqID tail ?_
    intro bs hbs b hb
    exact h b (by rw [hbs]; exact hb)
  cases r with
  | mk rid cmd pars =>
    cases pars with
    | none =>
      rw [parseRequest.eq_def]
      simp [marshalRequestChars, renderObj, commaSep, keyLit, dropLit,
        renderString_plainKey "reqId" (by decide),
        renderString_plainKey "cmd" (by decide),
        hrid, parseJStr_renderString, mkData]
    | some p =>
      rw [parseRequest.eq_def]
      simp [marshalRequestChars, renderObj, commaSep, keyLit, dropLit,
        renderString_plainKey "reqId" (by decide),
        renderString_plainKey "cmd" (by decide),
        renderString_plainKey "params" (by decide),
        (show ¬ (',' : Char) = rbrace from by decide),
        hrid, parseJStr_renderString, parseParams_rt, mkData]

/-- Distinct valid envelopes marshal to distinct JSON bodies. -/
theorem marshalRequest_inj (r1 r2 : request) (h1 : validReq r1) (h2 : validReq r2)
    (heq : marshalRequest r1 = marshalRequest r2) : r1 = r2 := by
  have hchars : marshalRequestChars r1 = marshalRequestChars r2 := by
    have := congrArg String.data heq
    simpa [marshalRequest] using this
  have p1 := parseRequest_rt r1 [] h1
  have p2 := parseRequest_rt r2 [] h2
  rw [hchars, p2] at p1
  exact (Prod.mk.injEq _ _ _ _ ▸ Option.some.injEq _ _ ▸ p1).1.symm

/-! ## Claims C3 and C4: signing-string sensitivity and the body shape -/

/-- Claim C3 (amended): the signing string is deterministic; changing the
timestamp alone, or any envelope field alone, changes it; changing only
the letter case of the serial does not change it, because the serial is
lowercased into the signing string. -/
theorem signingString_sensitivity (r r2 : Robot) (req req2 : request) (ts ts2 : String) :
    (r = r2 → req = req2 → ts = ts2 → r.signingString req ts = r2.signingString req2 ts2) ∧
    (ts ≠ ts2 → r.signingString req ts ≠ r.signingString req ts2) ∧
    (validReq req → validReq req2 → req ≠ req2 →
      r.signingString req ts ≠ r.signingString req2 ts) ∧
    (asciiToLower r.Serial = asciiToLower r2.Serial →
      r.signingString req ts = r2.signingString req ts) := by
  refine ⟨?_, ?_, ?_, ?_⟩
  · intro h1 h2 h3
    rw [h1, h2, h3]
  · intro hne heq
    apply hne
    have hd := congrArg String.data heq
    simp only [Robot.signingString, String.data_append] at hd
    have hd1 := List.append_cancel_right hd
    have hd2 := List.append_cancel_right hd1
    have hd3 := List.append_cancel_left hd2
    exact String.ext hd3
  · intro hv1 hv2 hne heq
    apply hne
    have hd := congrArg String.data heq
    simp only [Robot.signingString, String.data_append] at hd
    have hd1 := List.append_cancel_left hd
    exact marshalRequest_inj req req2 hv1 hv2 (String.ext hd1)
  · intro hls
    simp only [Robot.signingString, hls]

/-- Counterexample to claim C3 as stated: two robots whose serials differ
only in letter case produce the same signing string on the same envelope
and timestamp, so changing the serial's case does not change the signing
string. -/
theorem signingString_serial_case_counterexample :
    ({ Serial := "A", SecretKey := "k" } : Robot) ≠ { Serial := "a", SecretKey := "k" } ∧
    Robot.signingString { Serial := "A", SecretKey := "k" } { Cmd := "findMe" }
        "Mon, 02 Jan 2006 15:04:05 MST" =
      Robot.signingString { Serial := "a", SecretKey := "k" } { Cmd := "findMe" }
        "Mon, 02 Jan 2006 15:04:05 MST" := by
  constructor
  · decide
  · decide

/-- Witness for the claim C3 theorem at concrete inputs. -/
theorem signingString_sensitivity_witness :
    Robot.signingString { Serial := "AB", SecretKey := "k" } { Cmd := "findMe" } "t1" ≠
      Robot.signingString { Serial := "AB", SecretKey := "k" } { Cmd := "findMe" } "t2" ∧
    Robot.signingString { Serial := "AB", SecretKey := "k" } { Cmd := "findMe" } "t1" ≠
      Robot.signingString { Serial := "AB", SecretKey := "k" } { Cmd := "findYou" } "t1" ∧
    Robot.signingString { Serial := "AB", SecretKey := "k" } { Cmd := "findMe" } "t1" =
      Robot.signingString { Serial := "aB", SecretKey := "k" } { Cmd := "findMe" } "t1" := by
  refine ⟨?_, ?_, ?_⟩
  · exact (signingString_sensitivity { Serial := "AB", SecretKey := "k" }
      { Serial := "AB", SecretKey := "k" } { Cmd := "findMe" } { Cmd := "findMe" }
      "t1" "t2").2.1 (by decide)
  · exact (signingString_sensitivity { Serial := "AB", SecretKey := "k" }
      { Serial := "AB", SecretKey := "k" } { Cmd := "findMe" } { Cmd := "findYou" }
      "t1" "t1").2.2.1 (by decide) (by decide) (by decide)
  · exact (signingString_sensitivity { Serial := "AB", SecretKey := "k" }
      { Serial := "aB", SecretKey := "k" } { Cmd := "findMe" } { Cmd := "findMe" }
      "t1" "t1").2.2.2 (by decide)

/-- Body shape that claim C4 asserts, written from the claim's words: a
JSON object whose reqId field is the envelope's identifier itself as a
JSON string, whose cmd field is the command name, and whose params field
appears only when parameters were supplied. -/
def claimedBodyHex (r : request) : String :=
  String.mk (renderObj
    ([("reqId", '"' :: (sliceStr r.ReqID).map Char.ofNat ++ ['"']),
      ("cmd", renderString r.Cmd)] ++
      (match r.Params with
       | none => []
       | some p => [("params", marshalParamsChars p)])))

/-- Envelope carrying the 32-hex-character identifier of sixteen zero
bytes. -/
def reqHexZero : request :=
  { ReqID := some ((hexEncode (List.replicate 16 0)).map Char.toNat), Cmd := "findMe" }

/-- Counterexample to claim C4 as stated: the body the code marshals for
a concrete envelope carries the base64 encoding of the identifier bytes
in its reqId field, not the 32-hex-character identifier string the claim
asserts. -/
theorem marshal_reqid_base64_counterexample :
    marshalRequest reqHexZero =
      "\x7b\"reqId\":\"MDAwMDAwMDAwMDAwMDAwMDAwMDAwMDAwMDAwMDAwMDA=\",\"cmd\":\"findMe\"\x7d" ∧
    claimedBodyHex reqHexZero =
      "\x7b\"reqId\":\"00000000000000000000000000000000\",\"cmd\":\"findMe\"\x7d" ∧
    marshalRequest reqHexZero ≠ claimedBodyHex reqHexZero := by
  refine ⟨?_, ?_, ?_⟩
  · decide
  · decide
  · decide

/-- Claim C4 (amended): the POST body is a JSON object whose reqId field
is the standard-base64 encoding of the envelope's identifier bytes as a
JSON string, whose cmd field is the command name, and whose params field
is present only when parameters were supplied. -/
theorem marshal_body_shape (r : request) (bs : List Nat) (h : r.ReqID = some bs) :
    marshalRequest r =
      "\x7b\"reqId\":\"" ++ String.mk (b64encode bs) ++ "\",\"cmd\":" ++
        String.mk (renderString r.Cmd) ++
        (match r.Params with
         | none => ""
         | some p => ",\"params\":" ++ String.mk (marshalParamsChars p)) ++ "\x7d" := by
  have hlb : lbrace = '\x7b' := by decide
  have hrb : rbrace = '\x7d' := by decide
  apply String.ext
  cases hp : r.Params with
  | none =>
    simp [marshalRequest, marshalRequestChars, renderObj, commaSep, renderReqID, h, hp,
      String.data_append, hlb, hrb, renderString_plainKey "reqId" (by decide),
      renderString_plainKey "cmd" (by decide)]
  | some p =>
    simp [marshalRequest, marshalRequestChars, renderObj, commaSep, renderReqID, h, hp,
      String.data_append, hlb, hrb, renderString_plainKey "reqId" (by decide),
      renderString_plainKey "cmd" (by decide), renderString_plainKey "params" (by decide)]

/-- Witness for the amended claim C4 theorem at concrete envelopes with
and without parameters. -/
theorem marshal_body_shape_witness :
    marshalRequest reqHexZero =
      "\x7b\"reqId\":\"" ++
        String.mk (b64encode ((hexEncode (List.replicate 16 0)).map Char.toNat)) ++
        "\",\"cmd\":" ++ String.mk (renderString "findMe") ++ "" ++ "\x7d" ∧
    marshalRequest { reqHexZero with Params := some {} } =
      "\x7b\"reqId\":\"" ++
        String.mk (b64encode ((hexEncode (List.replicate 16 0)).map Char.toNat)) ++
        "\",\"cmd\":" ++ String.mk (renderString "findMe") ++
        (",\"params\":" ++ String.mk (marshalParamsChars {})) ++ "\x7d" := by
  constructor
  · exact marshal_body_shape reqHexZero _ rfl
  · exact marshal_body_shape { reqHexZero with Params := some {} } _ rfl

end Neato
